import Mathlib

/-!
Formal model of the `obsidian-confluence-upload-note` plugin core:
the markdown-to-Confluence converter (`src/converter.ts`), the simple
converter's XHTML normalization and error fallback (`simpleConverter.ts`),
the mermaid diagram pipeline (`src/mermaidRenderer.ts`), the publish
orchestrator (`src/main.ts`, `performUpload`) and the page update logic
(`src/confluenceApi.ts`, `updatePage`).

Strings are modelled as `List Char` internally (`String` at the
boundaries).  JavaScript regex passes are modelled as explicit
left-to-right scanners that replace each non-overlapping match and never
rescan produced text, which is the semantics of `String.replace` with a
global regex.  Scanners that skip a variable number of characters after a
match take a fuel argument; the wrappers pass the input length, which is
always sufficient because every step consumes at least one character.

External collaborators (the `marked` renderer, the mermaid render engine
and the Confluence HTTP transport) are modelled as oracle function
arguments; every remote call performed is recorded in an event trace.
-/

namespace MdUtil

/-- JavaScript regex whitespace (`\s`) over the ASCII range: space, tab,
newline, carriage return, vertical tab and form feed. -/
def isWsChar (c : Char) : Bool :=
  c == ' ' || c == '\t' || c == '\n' || c == '\r' || c == '\x0b' || c == '\x0c'

/-- JavaScript regex word character (`\w`): letters, digits and underscore. -/
def wordChar (c : Char) : Bool :=
  c.isAlpha || c.isDigit || c == '_'

/-- First occurrence of `pat` in `s`: the part strictly before the match and
the part strictly after it.  This is the scan performed by a JavaScript
string `replace` whose pattern is a plain string. -/
def splitFirst (pat : List Char) : List Char → Option (List Char × List Char)
  | [] => if pat.isEmpty then some ([], []) else none
  | c :: rest =>
    if pat.isPrefixOf (c :: rest) then some ([], (c :: rest).drop pat.length)
    else
      match splitFirst pat rest with
      | some (pre, post) => some (c :: pre, post)
      | none => none

/-- JavaScript `s.replace(pat, repl)` with a plain-string pattern: replace
the first occurrence only. -/
def replaceFirst (s pat repl : List Char) : List Char :=
  match splitFirst pat s with
  | some (pre, post) => pre ++ repl ++ post
  | none => s

/-- Whether `pat` occurs in `s` as a contiguous substring. -/
def containsSub (s pat : List Char) : Bool :=
  (splitFirst pat s).isSome

/-- JavaScript `String.prototype.trim` (ASCII whitespace). -/
def trimChars (s : List Char) : List Char :=
  ((s.dropWhile isWsChar).reverse.dropWhile isWsChar).reverse

/-- JavaScript `s.split(sep)` for a one-character separator. -/
def splitOnChar (sep : Char) : List Char → List (List Char)
  | [] => [[]]
  | c :: r =>
    if c == sep then [] :: splitOnChar sep r
    else
      match splitOnChar sep r with
      | [] => [[c]]
      | l :: ls => (c :: l) :: ls

/-- Join pieces back with a newline (inverse of splitting on `'\n'`). -/
def joinNl : List (List Char) → List Char
  | [] => []
  | [l] => l
  | l :: ls => l ++ '\n' :: joinNl ls

/-- JavaScript `markdown.replace(/\n/g, '<br />')`. -/
def replaceNewlines : List Char → List Char
  | [] => []
  | c :: r => (if c == '\n' then "<br />".data else [c]) ++ replaceNewlines r

/-- Lazy regex body: after an opening delimiter, consume the shortest body of
length at least `minB` whose characters avoid `bad` and that is followed by
the closing delimiter `cl`.  Returns the body and the text after `cl`.
This is the backtracking behaviour of `(.+?)`, `([\s\S]*?)` and of greedy
complemented classes such as `([^)]+)` followed by their delimiter. -/
def lazyBody (cl bad : List Char) : Nat → List Char → Option (List Char × List Char)
  | 0, s =>
    if cl.isPrefixOf s then some ([], s.drop cl.length)
    else
      match s with
      | [] => none
      | c :: rest =>
        if bad.contains c then none
        else
          match lazyBody cl bad 0 rest with
          | some (b, a) => some (c :: b, a)
          | none => none
  | _ + 1, [] => none
  | m + 1, c :: rest =>
    if bad.contains c then none
    else
      match lazyBody cl bad m rest with
      | some (b, a) => some (c :: b, a)
      | none => none

/-- One global pass of a JavaScript regex `replace` of shape
`op (lazy body) cl`: scan left to right, replace every non-overlapping
match by `mk body`, never rescan produced text. -/
def replaceLazyScan (op cl bad : List Char) (minB : Nat) (mk : List Char → List Char) :
    Nat → List Char → List Char
  | _, [] => []
  | 0, s => s
  | fuel + 1, c :: rest =>
    if op.isPrefixOf (c :: rest) then
      match lazyBody cl bad minB ((c :: rest).drop op.length) with
      | some (body, after) => mk body ++ replaceLazyScan op cl bad minB mk fuel after
      | none => c :: replaceLazyScan op cl bad minB mk fuel rest
    else c :: replaceLazyScan op cl bad minB mk fuel rest

/-- One global pass of a case-sensitive literal removal
(`content.replace(pat, '')` with a global regex of literal characters). -/
def removeAllCS (pat : List Char) : Nat → List Char → List Char
  | _, [] => []
  | 0, s => s
  | fuel + 1, c :: rest =>
    if pat.isPrefixOf (c :: rest) then removeAllCS pat fuel ((c :: rest).drop pat.length)
    else c :: removeAllCS pat fuel rest

end MdUtil

namespace Mermaid

/-- `mermaidRenderer.ts`: one extracted diagram block.  `svg` is the result
of `renderToSvg` (`none` when rendering failed), `code` the trimmed source. -/
structure MermaidItem where
  index : Nat
  svg : Option String
  code : String
deriving DecidableEq

/-- Opening of a mermaid fenced block as matched by
the regex in `processMermaidBlocks`. -/
def openFence : List Char := "```mermaid\n".data

/-- The closing fence. -/
def closeFence : List Char := "```".data

/-- All mermaid fence bodies, scanning like the global regex
`exec` loop: leftmost opener, then the lazy (first) closing fence,
resuming after the match. -/
def blocksAux : Nat → List Char → List (List Char)
  | 0, _ => []
  | fuel + 1, s =>
    match MdUtil.splitFirst openFence s with
    | none => []
    | some (_, afterOpen) =>
      match MdUtil.splitFirst closeFence afterOpen with
      | none => []
      | some (body, afterClose) => body :: blocksAux fuel afterClose

/-- The mermaid code blocks of a markdown source, in document order: for
each match, the trimmed body (`match[1].trim()`) and the full matched text
(`match[0]`). -/
def mermaidMatches (s : String) : List (String × String) :=
  (blocksAux s.data.length s.data).map fun body =>
    (String.mk (MdUtil.trimChars body), String.mk (openFence ++ body ++ closeFence))

/-- The HTML-comment placeholder substituted for diagram `i`. -/
def mermaidPlaceholder (i : Nat) : String :=
  "<!--MERMAID_PLACEHOLDER_" ++ toString i ++ "-->"

/-- `MermaidRenderer.generateConfluenceMarkup`: an attachment image
reference when a filename is given, otherwise the fallback code block
wrapping the original diagram source. -/
def generateConfluenceMarkup (filename : Option String) (code : String) : String :=
  match filename with
  | some f =>
    "<ac:image ac:height=\"400\"><ri:attachment ri:filename=\"" ++ f ++ "\" /></ac:image>"
  | none =>
    "<ac:structured-macro ac:name=\"code\">\n                <ac:parameter ac:name=\"language\">mermaid</ac:parameter>\n                <ac:parameter ac:name=\"title\">Mermaid Diagram</ac:parameter>\n                <ac:plain-text-body><![CDATA[" ++ code ++ "]]></ac:plain-text-body>\n            </ac:structured-macro>"

/-- Events recorded by the diagram pipeline.  The ordinal annotations on
`render` and `upload` are the loop indices of the source; `publish` is a
call to `api.updatePage`, `upload` a call to `api.uploadAttachment`. -/
inductive PubEvent where
  | render (ordinal : Nat)
  | publish (pageId : String) (content : String)
  | upload (ordinal : Nat) (pageId : String) (filename : String)
deriving DecidableEq

/-- The per-block loop of `processMermaidBlocks`: render block `i` (the
outcome given by the `render` oracle), record the item, and replace the
first occurrence of the full match by the placeholder. -/
def processBlocksAux (render : Nat → Option String) :
    Nat → List Char → List (String × String) → List Char × List MermaidItem × List PubEvent
  | _, processed, [] => (processed, [], [])
  | i, processed, (code, fullMatch) :: rest =>
    let r := processBlocksAux render (i + 1)
      (MdUtil.replaceFirst processed fullMatch.data (mermaidPlaceholder i).data) rest
    (r.1, ⟨i, render i, code⟩ :: r.2.1, PubEvent.render i :: r.2.2)

/-- `MermaidRenderer.processMermaidBlocks`, with the render engine as an
oracle keyed by block ordinal. -/
def processMermaidBlocks (render : Nat → Option String) (markdown : String) :
    String × List MermaidItem × List PubEvent :=
  let r := processBlocksAux render 0 markdown.data (mermaidMatches markdown)
  (String.mk r.1, r.2.1, r.2.2)

end Mermaid

namespace SimpleConverter

/-- Case-insensitive prefix test against a lowercase pattern, modelling the
`i` flag of the cleanup regexes in `simpleConverter.ts`. -/
def prefixCI : List Char → List Char → Bool
  | [], _ => true
  | _ :: _, [] => false
  | p :: ps, c :: cs => (c.toLower == p) && prefixCI ps cs

/-- One pass of `/<tag\s*>/gi` replaced by `repl` (used for
`<hr\s*>` and `<br\s*>`). -/
def emptyTagScan (tag repl : List Char) : Nat → List Char → List Char
  | _, [] => []
  | 0, s => s
  | fuel + 1, c :: rest =>
    if prefixCI tag (c :: rest) then
      let after := (c :: rest).drop tag.length
      let ws := after.takeWhile MdUtil.isWsChar
      match after.drop ws.length with
      | '>' :: rest2 => repl ++ emptyTagScan tag repl fuel rest2
      | _ => c :: emptyTagScan tag repl fuel rest
    else c :: emptyTagScan tag repl fuel rest

/-- One pass of `/<tag\s*\/\s*>/gi` replaced by `repl`. -/
def slashTagScan (tag repl : List Char) : Nat → List Char → List Char
  | _, [] => []
  | 0, s => s
  | fuel + 1, c :: rest =>
    if prefixCI tag (c :: rest) then
      let after := (c :: rest).drop tag.length
      let ws := after.takeWhile MdUtil.isWsChar
      match after.drop ws.length with
      | '/' :: rest2 =>
        let ws2 := rest2.takeWhile MdUtil.isWsChar
        match rest2.drop ws2.length with
        | '>' :: rest3 => repl ++ slashTagScan tag repl fuel rest3
        | _ => c :: slashTagScan tag repl fuel rest
      | _ => c :: slashTagScan tag repl fuel rest
    else c :: slashTagScan tag repl fuel rest

/-- One pass of `/<img([^>]+)(?<!\/)\s*>/gi` replaced by `<img$1/>`.
Backtracking analysis of the lookbehind: writing the text after `<img` as a
maximal `>`-free run followed by `>`, the regex matches exactly when the
run is non-empty and does not end in `/`, and the whole run is kept as the
captured group. -/
def imgTagScan : Nat → List Char → List Char
  | _, [] => []
  | 0, s => s
  | fuel + 1, c :: rest =>
    if prefixCI "<img".data (c :: rest) then
      let after := (c :: rest).drop 4
      let run := after.takeWhile (fun d => d != '>')
      match after.drop run.length with
      | '>' :: rest2 =>
        if run.isEmpty || run.getLast? == some '/' then c :: imgTagScan fuel rest
        else "<img".data ++ run ++ "/>".data ++ imgTagScan fuel rest2
      | _ => c :: imgTagScan fuel rest
    else c :: imgTagScan fuel rest

/-- One pass of a case-insensitive literal removal
(`/<\/hr>/gi` and `/<\/br>/gi` replaced by the empty string). -/
def removeAllCI (pat : List Char) : Nat → List Char → List Char
  | _, [] => []
  | 0, s => s
  | fuel + 1, c :: rest =>
    if prefixCI pat (c :: rest) then removeAllCI pat fuel ((c :: rest).drop pat.length)
    else c :: removeAllCI pat fuel rest

/-- `SimpleConfluenceConverter.convert`, lines 150-164: the final XHTML
normalization pass.  Trims the rendered HTML, rewrites `hr`, `br` and `img`
empty-element tags into self-closing form, and removes stray `</hr>` and
`</br>` closing tags. -/
def cleanupXhtml (html : String) : String :=
  let s0 := MdUtil.trimChars html.data
  let s1 := emptyTagScan "<hr".data "<hr/>".data s0.length s0
  let s2 := slashTagScan "<hr".data "<hr/>".data s1.length s1
  let s3 := emptyTagScan "<br".data "<br/>".data s2.length s2
  let s4 := slashTagScan "<br".data "<br/>".data s3.length s3
  let s5 := imgTagScan s4.length s4
  let s6 := removeAllCI "</hr>".data s5.length s5
  let s7 := removeAllCI "</br>".data s6.length s6
  String.mk s7

/-- The fallback replacement of stray
`MERMAID_BLOCK_PLACEHOLDER` comment pairs run on the `marked` output. -/
def mermaidBlockFallbackPass (html : String) : String :=
  String.mk (MdUtil.replaceLazyScan "<!--MERMAID_BLOCK_PLACEHOLDER_START-->".data
    "<!--MERMAID_BLOCK_PLACEHOLDER_END-->".data [] 0
    (fun b => "<pre><code>mermaid\n".data ++ b ++ "</code></pre>".data)
    html.data.length html.data)

/-- The body of the `try` block of `SimpleConfluenceConverter.convert`:
process mermaid blocks when enabled, hand the placeholder-bearing markdown
to the external `marked` renderer (the `parse` oracle), apply the stray
placeholder fallback and the XHTML normalization pass. -/
def convertBody (enableMermaid : Bool) (render : Nat → Option String)
    (parse : String → String) (markdown : String) :
    String × Option (List Mermaid.MermaidItem) × List Mermaid.PubEvent :=
  if enableMermaid then
    let r := Mermaid.processMermaidBlocks render markdown
    (cleanupXhtml (mermaidBlockFallbackPass (parse r.1)), some r.2.1, r.2.2)
  else
    (cleanupXhtml (mermaidBlockFallbackPass (parse markdown)), none, [])

/-- `SimpleConfluenceConverter.convert`, lines 123-176: the whole body runs
inside a `try`; `bodyOutcome` is its result, `Except.error` standing for
any exception raised by an internal pass.  The `catch` branch returns the
input wrapped in a paragraph with newlines rewritten to line breaks, and a
null mermaid list, so the function is total and never propagates the
error. -/
def convert (markdown : String)
    (bodyOutcome : Except String (String × Option (List Mermaid.MermaidItem))) :
    String × Option (List Mermaid.MermaidItem) :=
  match bodyOutcome with
  | Except.ok r => r
  | Except.error _ =>
    ("<p>" ++ String.mk (MdUtil.replaceNewlines markdown.data) ++ "</p>", none)

end SimpleConverter

namespace MainPlugin

open Mermaid

/-- One iteration of the diagram loop of
`ConfluenceUploadPlugin.performUpload` (`main.ts` lines 154-202): when the
block has an SVG, attempt the attachment upload (outcome given by the
`uploadOk` oracle); on success substitute the attachment image markup for
the block's placeholder, on failure (the `catch` branch) substitute the
fallback code block; when there is no SVG substitute the fallback without
attempting an upload. -/
def resolveDiagram (uploadOk : Nat → Bool) (pageId : String) (html : List Char)
    (it : MermaidItem) : List PubEvent × List Char :=
  match it.svg with
  | some _ =>
    let filename := "mermaid-" ++ toString it.index ++ ".svg"
    if uploadOk it.index then
      ([PubEvent.upload it.index pageId filename],
       MdUtil.replaceFirst html (mermaidPlaceholder it.index).data
         (generateConfluenceMarkup (some filename) it.code).data)
    else
      ([PubEvent.upload it.index pageId filename],
       MdUtil.replaceFirst html (mermaidPlaceholder it.index).data
         (generateConfluenceMarkup none it.code).data)
  | none =>
    ([], MdUtil.replaceFirst html (mermaidPlaceholder it.index).data
      (generateConfluenceMarkup none it.code).data)

/-- The diagram loop, in list order (the source iterates `mermaidData`
sequentially and awaits each upload before starting the next). -/
def resolveDiagrams (uploadOk : Nat → Bool) (pageId : String) :
    List Char → List MermaidItem → List PubEvent × List Char
  | html, [] => ([], html)
  | html, it :: rest =>
    let r1 := resolveDiagram uploadOk pageId html it
    let r2 := resolveDiagrams uploadOk pageId r1.2 rest
    (r1.1 ++ r2.1, r2.2)

/-- `ConfluenceUploadPlugin.performUpload` (`main.ts` lines 141-212), with
the conversion already done: when the mermaid list is non-empty, publish
the placeholder document, resolve every diagram, and publish the resolved
document; otherwise publish once.  `api.updatePage` calls are recorded as
`publish` events (their success is assumed here; a failing publish is a
fatal error of the action by design and aborts via the outer `catch`). -/
def performUpload (uploadOk : Nat → Bool) (pageId : String) (html : String)
    (mermaidData : Option (List MermaidItem)) : List PubEvent × String :=
  match mermaidData with
  | some items =>
    if 0 < items.length then
      let r := resolveDiagrams uploadOk pageId html.data items
      (PubEvent.publish pageId html ::
        (r.1 ++ [PubEvent.publish pageId (String.mk r.2)]), String.mk r.2)
    else ([PubEvent.publish pageId html], html)
  | none => ([PubEvent.publish pageId html], html)

/-- The whole upload action: convert (rendering diagrams along the way)
then publish and resolve attachments. -/
def uploadPipeline (enableMermaid : Bool) (render : Nat → Option String)
    (parse : String → String) (uploadOk : Nat → Bool) (pageId markdown : String) :
    List PubEvent × String :=
  let conv := SimpleConverter.convertBody enableMermaid render parse markdown
  let up := performUpload uploadOk pageId conv.1 conv.2.1
  (conv.2.2 ++ up.1, up.2)

/-- Render-attempt ordinals of a trace, in order. -/
def renderOrds (evs : List PubEvent) : List Nat :=
  evs.filterMap fun e =>
    match e with
    | PubEvent.render i => some i
    | _ => none

/-- Attachment-upload ordinals of a trace, in order. -/
def uploadOrds (evs : List PubEvent) : List Nat :=
  evs.filterMap fun e =>
    match e with
    | PubEvent.upload i _ _ => some i
    | _ => none

/-- Target page ids of the publish calls of a trace, in order. -/
def publishCalls (evs : List PubEvent) : List String :=
  evs.filterMap fun e =>
    match e with
    | PubEvent.publish pid _ => some pid
    | _ => none

end MainPlugin

namespace ConfluenceApi

/-- The part of a fetched page that `updatePage` reads. -/
structure PageInfo where
  version : Nat
  title : String
deriving DecidableEq

/-- Remote calls made by `updatePage`. -/
inductive ApiEvent where
  | getPage (pageId : String)
  | putPage (pageId : String) (version : Nat) (title : String) (content : String)
deriving DecidableEq

/-- `ConfluenceAPI.updatePage` (`confluenceApi.ts` lines 109-206): reject an
empty page id, re-read the page (outcome given by `getResult`), build the
update request with the freshly read version plus one and the given title
or the freshly read one (`title || currentPage.title`), issue the PUT
(status given by `putStatus`), and fail on any non-2xx status without
retrying.  The enrichment of the error message from the response body is
omitted; only the leading status text is kept. -/
def updatePage (pageId content : String) (title : Option String)
    (getResult : Except String PageInfo) (putStatus : Nat) :
    Except String Unit × List ApiEvent :=
  if pageId == "" then (Except.error "Page ID is required", [])
  else
    match getResult with
    | Except.error e => (Except.error e, [ApiEvent.getPage pageId])
    | Except.ok currentPage =>
      let newVersion := currentPage.version + 1
      let pageTitle :=
        match title with
        | some t => if t == "" then currentPage.title else t
        | none => currentPage.title
      let evs := [ApiEvent.getPage pageId,
        ApiEvent.putPage pageId newVersion pageTitle content]
      if putStatus < 200 || 300 ≤ putStatus then
        (Except.error ("Failed to update page: " ++ toString putStatus), evs)
      else (Except.ok (), evs)

/-- Whether an API event is a page update (PUT). -/
def isPut : ApiEvent → Bool
  | ApiEvent.putPage _ _ _ _ => true
  | _ => false

end ConfluenceApi

namespace Converter

/-- The tail of the list-item / heading / blockquote regexes: `\s+(.+)$`
applied to the rest of a line.  Greedy `\s+` with backtracking: when some
non-whitespace follows, the text starts at the first non-whitespace
character; when the rest is whitespace only, the match succeeds exactly
when there are at least two characters, the last one becoming the text. -/
def wsPlusRest (rest : List Char) : Option (List Char) :=
  let w := rest.takeWhile MdUtil.isWsChar
  if w.isEmpty then none
  else if w.length == rest.length then
    if 2 ≤ rest.length then some (rest.drop (rest.length - 1)) else none
  else some (rest.drop w.length)

/-- `^#{d}\s+(.+)$` per line (the heading rules, applied from six hash
marks down to one). -/
def headingLine (d : Nat) (line : List Char) : List Char :=
  if (List.replicate d '#').isPrefixOf line then
    match wsPlusRest (line.drop d) with
    | some text =>
      ("<h" ++ toString d ++ ">").data ++ text ++ ("</h" ++ toString d ++ ">").data
    | none => line
  else line

/-- Apply a per-line rewrite to every line (the `gm`-anchored rules are
line-anchored; they are modelled line-wise). -/
def linePass (f : List Char → List Char) (content : List Char) : List Char :=
  MdUtil.joinNl ((MdUtil.splitOnChar '\n' content).map f)

/-- A delimiter-pair rule such as `/\*\*(.+?)\*\*/g`: lazy body of at least
one non-newline character. -/
def lazyRule (op cl pre post : List Char) (content : List Char) : List Char :=
  MdUtil.replaceLazyScan op cl ['\n'] 1 (fun b => pre ++ b ++ post)
    content.length content

/-- `/\[([^\]]+)\]\(([^)]+)\)/g` replaced by `<a href="$2">$1</a>`. -/
def linkScan : Nat → List Char → List Char
  | _, [] => []
  | 0, s => s
  | fuel + 1, c :: rest =>
    if c == '[' then
      match MdUtil.lazyBody "]".data [']'] 1 rest with
      | some (txt, after1) =>
        match after1 with
        | '(' :: after2 =>
          match MdUtil.lazyBody ")".data [')'] 1 after2 with
          | some (url, after3) =>
            "<a href=\"".data ++ url ++ "\">".data ++ txt ++ "</a>".data ++
              linkScan fuel after3
          | none => c :: linkScan fuel rest
        | _ => c :: linkScan fuel rest
      | none => c :: linkScan fuel rest
    else c :: linkScan fuel rest

/-- `/!\[([^\]]*)\]\(([^)]+)\)/g` replaced by
`<ac:image><ri:url ri:value="$2" /></ac:image>` (the alt text is dropped by
the source's replacement). -/
def imageScanMd : Nat → List Char → List Char
  | _, [] => []
  | 0, s => s
  | fuel + 1, c :: rest =>
    if c == '!' then
      match rest with
      | '[' :: rest2 =>
        match MdUtil.lazyBody "]".data [']'] 0 rest2 with
        | some (_, after1) =>
          match after1 with
          | '(' :: after2 =>
            match MdUtil.lazyBody ")".data [')'] 1 after2 with
            | some (url, after3) =>
              "<ac:image><ri:url ri:value=\"".data ++ url ++ "\" /></ac:image>".data ++
                imageScanMd fuel after3
            | none => c :: imageScanMd fuel rest
          | _ => c :: imageScanMd fuel rest
        | none => c :: imageScanMd fuel rest
      | _ => c :: imageScanMd fuel rest
    else c :: imageScanMd fuel rest

/-- `^---+$` per line. -/
def hrDashLine (line : List Char) : List Char :=
  if 3 ≤ line.length && line.all (fun c => c == '-') then "<hr />".data else line

/-- `^\*\*\*+$` per line. -/
def hrStarLine (line : List Char) : List Char :=
  if 3 ≤ line.length && line.all (fun c => c == '*') then "<hr />".data else line

/-- `^>\s+(.+)$` per line. -/
def blockquoteLine (line : List Char) : List Char :=
  match line with
  | '>' :: rest =>
    match wsPlusRest rest with
    | some text => "<blockquote>".data ++ text ++ "</blockquote>".data
    | none => line
  | _ => line

/-- List kinds (`'ul' | 'ol'` in the source). -/
inductive LKind where
  | ul
  | ol
deriving DecidableEq

/-- Tag name of a list kind. -/
def tagName : LKind → String
  | LKind.ul => "ul"
  | LKind.ol => "ol"

/-- Opening tag of a list kind. -/
def openTag (k : LKind) : String := "<" ++ tagName k ++ ">"

/-- Closing tag of a list kind. -/
def closeTag (k : LKind) : String := "</" ++ tagName k ++ ">"

/-- An element of the open-list stack (`{ type, indent }` in the source;
the `type` field is called `kind` here).  The source keeps the stack in an
array with the top at the end; here the head of the list is the top. -/
structure ListFrame where
  kind : LKind
  indent : Nat
deriving DecidableEq

/-- `^(\s*)[-*+]\s+(.+)$`: leading-whitespace count and item text. -/
def matchUnordered (line : List Char) : Option (Nat × List Char) :=
  let sp := line.takeWhile MdUtil.isWsChar
  match line.drop sp.length with
  | m :: rest =>
    if m == '-' || m == '*' || m == '+' then
      (wsPlusRest rest).map fun t => (sp.length, t)
    else none
  | [] => none

/-- `^(\s*)(\d+)\.\s+(.+)$`: leading-whitespace count and item text. -/
def matchOrdered (line : List Char) : Option (Nat × List Char) :=
  let sp := line.takeWhile MdUtil.isWsChar
  let rest := line.drop sp.length
  let ds := rest.takeWhile Char.isDigit
  if ds.isEmpty then none
  else
    match rest.drop ds.length with
    | '.' :: rest2 => (wsPlusRest rest2).map fun t => (sp.length, t)
    | _ => none

/-- The leading `while` of `handleListItem`: close every open list that is
deeper than the current indent. -/
def popDeeper (indent : Nat) : List String → List ListFrame → List String × List ListFrame
  | res, [] => (res, [])
  | res, f :: rest =>
    if indent < f.indent then popDeeper indent (res ++ [closeTag f.kind]) rest
    else (res, f :: rest)

/-- The list-item element. -/
def liItem (text : List Char) : String := "<li>" ++ String.mk text ++ "</li>"

/-- `MarkdownToConfluenceConverter.handleListItem`. -/
def handleListItem (res : List String) (stack : List ListFrame) (k : LKind)
    (indent : Nat) (text : List Char) : List String × List ListFrame :=
  let pr := popDeeper indent res stack
  match pr.2 with
  | [] => (pr.1 ++ [openTag k, liItem text], [⟨k, indent⟩])
  | f :: rest =>
    if f.indent < indent then
      (pr.1 ++ [openTag k, liItem text], ⟨k, indent⟩ :: f :: rest)
    else if f.kind ≠ k then
      (pr.1 ++ [closeTag f.kind, openTag k, liItem text], ⟨k, indent⟩ :: rest)
    else (pr.1 ++ [liItem text], f :: rest)

/-- Close every remaining open list, top first. -/
def closeAll : List String → List ListFrame → List String
  | res, [] => res
  | res, f :: rest => closeAll (res ++ [closeTag f.kind]) rest

/-- The per-line body of `convertLists`. -/
def listStep : List String × List ListFrame → List Char → List String × List ListFrame
  | (res, stack), line =>
    match matchUnordered line with
    | some (ind, text) => handleListItem res stack LKind.ul ind text
    | none =>
      match matchOrdered line with
      | some (ind, text) => handleListItem res stack LKind.ol ind text
      | none => (closeAll res stack ++ [String.mk line], [])

/-- `MarkdownToConfluenceConverter.convertLists`. -/
def convertLists (content : List Char) : List Char :=
  let lines := MdUtil.splitOnChar '\n' content
  let (res, stack) := lines.foldl listStep ([], [])
  (String.intercalate "\n" (closeAll res stack)).data

/-- `^\|.*\|$`: a candidate table row (the dot does not match a newline). -/
def pipeRow (s : String) : Bool :=
  match s.data with
  | '|' :: rest =>
    !rest.isEmpty && rest.getLast? == some '|' && !rest.dropLast.contains '\n'
  | _ => false

/-- `^\|[\s-:|]+\|$`: a separator line (the class is literal: whitespace,
dash, colon, pipe). -/
def sepClass (c : Char) : Bool :=
  MdUtil.isWsChar c || c == '-' || c == ':' || c == '|'

/-- Separator-line test. -/
def isSepRow (s : String) : Bool :=
  match s.data with
  | '|' :: rest =>
    !rest.isEmpty && rest.getLast? == some '|' && !rest.dropLast.isEmpty &&
      rest.dropLast.all sepClass
  | _ => false

/-- `line.split('|').slice(1, -1).map(cell => cell.trim())`. -/
def cellsOf (line : String) : List String :=
  (((MdUtil.splitOnChar '|' line.data).drop 1).dropLast).map
    fun c => String.mk (MdUtil.trimChars c)

/-- A header cell. -/
def thCell (c : String) : String := "<th>" ++ c ++ "</th>"

/-- A data cell. -/
def tdCell (c : String) : String := "<td>" ++ c ++ "</td>"

/-- The loop of `MarkdownToConfluenceConverter.convertTables` over the
lines, with the `inTable` flag as state.  A pipe row whose next line is a
separator emits the header cells and (only when no table is open) the
table and header openings, skips the separator, and closes the header
section; a pipe row inside a table is a body row; a pipe row outside a
table with no separator after it is pushed unchanged; a non-pipe line
closes an open table. -/
def convertTablesAux : Nat → Bool → List String → List String
  | _, false, [] => []
  | _, true, [] => ["</tbody>", "</table>"]
  | 0, inTable, _ :: _ => if inTable then ["</tbody>", "</table>"] else []
  | fuel + 1, inTable, line :: rest =>
    if pipeRow line then
      match rest with
      | next :: rest2 =>
        if isSepRow next then
          (if !inTable then ["<table>", "<thead>"] else []) ++
            ["<tr>"] ++ (cellsOf line).map thCell ++ ["</tr>", "</thead>", "<tbody>"] ++
            convertTablesAux fuel true rest2
        else if inTable then
          ["<tr>"] ++ (cellsOf line).map tdCell ++ ["</tr>"] ++
            convertTablesAux fuel inTable (next :: rest2)
        else line :: convertTablesAux fuel inTable (next :: rest2)
      | [] =>
        if inTable then
          ["<tr>"] ++ (cellsOf line).map tdCell ++ ["</tr>"] ++ convertTablesAux fuel inTable []
        else line :: convertTablesAux fuel inTable []
    else
      if inTable then "</tbody>" :: "</table>" :: line :: convertTablesAux fuel false rest
      else line :: convertTablesAux fuel false rest

/-- The table state machine started outside a table, with enough fuel (the
loop consumes at least one line per iteration, so any fuel of at least the
number of lines gives the loop's behaviour). -/
def convertTablesRun (lines : List String) : List String :=
  convertTablesAux lines.length false lines

/-- `MarkdownToConfluenceConverter.convertTables`. -/
def convertTables (content : List Char) : List Char :=
  (String.intercalate "\n"
    (convertTablesRun ((MdUtil.splitOnChar '\n' content).map String.mk))).data

/-- `/\n\n+/g` replaced by `</p><p>`. -/
def paraScan : Nat → List Char → List Char
  | _, [] => []
  | 0, s => s
  | fuel + 1, c :: rest =>
    if c == '\n' then
      match rest with
      | '\n' :: _ =>
        let run := rest.takeWhile (fun d => d == '\n')
        "</p><p>".data ++ paraScan fuel (rest.drop run.length)
      | _ => c :: paraScan fuel rest
    else c :: paraScan fuel rest

/-- Wrap in a paragraph unless the content already starts with a tag. -/
def wrapParagraph (content : List Char) : List Char :=
  match content with
  | '<' :: _ => content
  | _ => "<p>".data ++ content ++ "</p>".data

/-- `/<p>(<h[1-6]>)/g` replaced by `$1`. -/
def pHeadOpenScan : Nat → List Char → List Char
  | _, [] => []
  | 0, s => s
  | fuel + 1, c :: rest =>
    if "<p><h".data.isPrefixOf (c :: rest) then
      match (c :: rest).drop 5 with
      | d :: '>' :: rest2 =>
        if '1' ≤ d && d ≤ '6' then "<h".data ++ [d, '>'] ++ pHeadOpenScan fuel rest2
        else c :: pHeadOpenScan fuel rest
      | _ => c :: pHeadOpenScan fuel rest
    else c :: pHeadOpenScan fuel rest

/-- `/(<\/h[1-6]>)<\/p>/g` replaced by `$1`. -/
def pHeadCloseScan : Nat → List Char → List Char
  | _, [] => []
  | 0, s => s
  | fuel + 1, c :: rest =>
    if "</h".data.isPrefixOf (c :: rest) then
      match (c :: rest).drop 3 with
      | d :: '>' :: rest2 =>
        if ('1' ≤ d && d ≤ '6') && "</p>".data.isPrefixOf rest2 then
          "</h".data ++ [d, '>'] ++ pHeadCloseScan fuel (rest2.drop 4)
        else c :: pHeadCloseScan fuel rest
      | _ => c :: pHeadCloseScan fuel rest
    else c :: pHeadCloseScan fuel rest

/-- `MarkdownToConfluenceConverter.escapeHtml`. -/
def escapeHtml : List Char → List Char
  | [] => []
  | c :: r =>
    (if c == '&' then "&amp;".data
     else if c == '<' then "&lt;".data
     else if c == '>' then "&gt;".data
     else if c == '"' then "&quot;".data
     else if c == '\'' then "&#39;".data
     else [c]) ++ escapeHtml r

/-- Lowercase a string. -/
def lowerStr (s : String) : String := String.mk (s.data.map Char.toLower)

/-- The language alias table of `createConfluenceCodeBlock`. -/
def languageMap : String → Option String
  | "js" => some "javascript"
  | "ts" => some "typescript"
  | "tsx" => some "typescript"
  | "jsx" => some "javascript"
  | "bash" => some "bash"
  | "shell" => some "bash"
  | "sh" => some "bash"
  | "py" => some "python"
  | "yml" => some "yaml"
  | "json" => some "javascript"
  | "xml" => some "xml"
  | "html" => some "html"
  | "css" => some "css"
  | "sql" => some "sql"
  | "java" => some "java"
  | "c" => some "c"
  | "cpp" => some "cpp"
  | "c++" => some "cpp"
  | "cs" => some "csharp"
  | "c#" => some "csharp"
  | "go" => some "go"
  | "rust" => some "rust"
  | "ruby" => some "ruby"
  | "rb" => some "ruby"
  | "php" => some "php"
  | "swift" => some "swift"
  | "kotlin" => some "kotlin"
  | "r" => some "r"
  | "matlab" => some "matlab"
  | "scala" => some "scala"
  | "perl" => some "perl"
  | "lua" => some "lua"
  | "haskell" => some "haskell"
  | "clojure" => some "clojure"
  | "groovy" => some "groovy"
  | "powershell" => some "powershell"
  | "ps1" => some "powershell"
  | "dockerfile" => some "docker"
  | "makefile" => some "makefile"
  | "nginx" => some "nginx"
  | "apache" => some "apache"
  | "ini" => some "ini"
  | "toml" => some "toml"
  | "properties" => some "properties"
  | "diff" => some "diff"
  | "patch" => some "diff"
  | _ => none

/-- `languageMap[language.toLowerCase()] || language || 'text'`. -/
def mapLanguage (language : String) : String :=
  match languageMap (lowerStr language) with
  | some m => m
  | none => if language == "" then "text" else language

/-- `createConfluenceCodeBlock`: the Confluence code macro with the mapped
language and the content preserved in a CDATA section. -/
def createConfluenceCodeBlock (language : String) (content : List Char) : List Char :=
  ("<ac:structured-macro ac:name=\"code\">\n<ac:parameter ac:name=\"language\">" ++
    mapLanguage language ++
    "</ac:parameter>\n<ac:parameter ac:name=\"linenumbers\">true</ac:parameter>\n<ac:plain-text-body><![CDATA[").data ++
    content ++ "]]></ac:plain-text-body>\n</ac:structured-macro>".data

/-- `createCodeBlockPlaceholder` for counter value `n`. -/
def createCodeBlockPlaceholder (n : Nat) : String :=
  "__CODEBLOCK_" ++ toString n ++ "__"

/-- The fenced-block pass of `extractCodeBlocks`
(`/```(\w*)\n([\s\S]*?)```/g`): output text, collected
placeholder-to-replacement pairs in match order, and final counter. -/
def extractFencedAux : Nat → Nat → List Char →
    List Char × List (List Char × List Char) × Nat
  | _, ctr, [] => ([], [], ctr)
  | 0, ctr, s => (s, [], ctr)
  | fuel + 1, ctr, c :: rest =>
    if "```".data.isPrefixOf (c :: rest) then
      let afterTicks := (c :: rest).drop 3
      let langRun := afterTicks.takeWhile MdUtil.wordChar
      match afterTicks.drop langRun.length with
      | '\n' :: afterOpen =>
        match MdUtil.splitFirst "```".data afterOpen with
        | some (body, afterClose) =>
          let ph := (createCodeBlockPlaceholder ctr).data
          let block := createConfluenceCodeBlock
            (if langRun.isEmpty then "text" else String.mk langRun) body
          let (out, blocks, ctr') := extractFencedAux fuel (ctr + 1) afterClose
          (ph ++ out, (ph, block) :: blocks, ctr')
        | none => (c :: rest, [], ctr)
      | _ =>
        let (out, blocks, ctr') := extractFencedAux fuel ctr rest
        (c :: out, blocks, ctr')
    else
      let (out, blocks, ctr') := extractFencedAux fuel ctr rest
      (c :: out, blocks, ctr')

/-- The inline-code pass of `extractCodeBlocks` (`` /`([^`\n]+)`/g ``). -/
def extractInlineAux : Nat → Nat → List Char →
    List Char × List (List Char × List Char) × Nat
  | _, ctr, [] => ([], [], ctr)
  | 0, ctr, s => (s, [], ctr)
  | fuel + 1, ctr, c :: rest =>
    if c == '`' then
      match MdUtil.lazyBody "`".data ['`', '\n'] 1 rest with
      | some (code, after) =>
        let ph := (createCodeBlockPlaceholder ctr).data
        let block := "<code>".data ++ escapeHtml code ++ "</code>".data
        let (out, blocks, ctr') := extractInlineAux fuel (ctr + 1) after
        (ph ++ out, (ph, block) :: blocks, ctr')
      | none =>
        let (out, blocks, ctr') := extractInlineAux fuel ctr rest
        (c :: out, blocks, ctr')
    else
      let (out, blocks, ctr') := extractInlineAux fuel ctr rest
      (c :: out, blocks, ctr')

/-- `MarkdownToConfluenceConverter.extractCodeBlocks`: fenced blocks first,
inline code second, one shared counter. -/
def extractCodeBlocks (content : List Char) :
    List Char × List (List Char × List Char) :=
  let (c1, bs1, ctr1) := extractFencedAux content.length 0 content
  let (c2, bs2, _) := extractInlineAux c1.length ctr1 c1
  (c2, bs1 ++ bs2)

/-- `MarkdownToConfluenceConverter.restoreCodeBlocks`: for every stored
placeholder, in insertion order, replace its first occurrence by the stored
block. -/
def restoreCodeBlocks (content : List Char)
    (blocks : List (List Char × List Char)) : List Char :=
  blocks.foldl (fun c pb => MdUtil.replaceFirst c pb.1 pb.2) content

/-- `MarkdownToConfluenceConverter.convertMarkdownToConfluence`: the regex
passes in source order. -/
def convertMarkdownToConfluence (content : List Char) : List Char :=
  let c := linePass (headingLine 6) content
  let c := linePass (headingLine 5) c
  let c := linePass (headingLine 4) c
  let c := linePass (headingLine 3) c
  let c := linePass (headingLine 2) c
  let c := linePass (headingLine 1) c
  let c := lazyRule "***".data "***".data "<strong><em>".data "</em></strong>".data c
  let c := lazyRule "**".data "**".data "<strong>".data "</strong>".data c
  let c := lazyRule "*".data "*".data "<em>".data "</em>".data c
  let c := lazyRule "___".data "___".data "<strong><em>".data "</em></strong>".data c
  let c := lazyRule "__".data "__".data "<strong>".data "</strong>".data c
  let c := lazyRule "_".data "_".data "<em>".data "</em>".data c
  let c := lazyRule "~~".data "~~".data "<del>".data "</del>".data c
  let c := linkScan c.length c
  let c := imageScanMd c.length c
  let c := linePass hrDashLine c
  let c := linePass hrStarLine c
  let c := linePass blockquoteLine c
  let c := convertLists c
  let c := convertTables c
  let c := paraScan c.length c
  let c := MdUtil.replaceNewlines c
  let c := wrapParagraph c
  let c := MdUtil.removeAllCS "<p></p>".data c.length c
  let c := pHeadOpenScan c.length c
  let c := pHeadCloseScan c.length c
  c

/-- `MarkdownToConfluenceConverter.convert`: protect code, apply the
formatting passes, restore code. -/
def convert (markdown : String) : String :=
  let (c1, blocks) := extractCodeBlocks markdown.data
  let c2 := convertMarkdownToConfluence c1
  String.mk (restoreCodeBlocks c2 blocks)

end Converter

namespace MainPlugin

/-- The markup that `performUpload` ends up substituting for the
placeholder of a diagram block: the attachment image reference exactly
when a rendered SVG exists and its upload succeeds, the fallback code
block wrapping the original source otherwise. -/
def resolvedMarkup (uploadOk : Nat → Bool) (it : Mermaid.MermaidItem) : String :=
  if it.svg.isSome && uploadOk it.index then
    Mermaid.generateConfluenceMarkup
      (some ("mermaid-" ++ toString it.index ++ ".svg")) it.code
  else Mermaid.generateConfluenceMarkup none it.code

/-- The per-item upload event produced by `resolveDiagram`. -/
def uploadEventOf (pageId : String) (it : Mermaid.MermaidItem) : Option Mermaid.PubEvent :=
  match it.svg with
  | some _ => some (Mermaid.PubEvent.upload it.index pageId
      ("mermaid-" ++ toString it.index ++ ".svg"))
  | none => none

/-- The diagram items produced while converting `markdown` with the given
render oracle: ordinal, render outcome and trimmed source of every mermaid
match, in document order. -/
def pipelineItems (render : Nat → Option String) (markdown : String) :
    List Mermaid.MermaidItem :=
  (Mermaid.mermaidMatches markdown).enum.map
    fun p => ⟨p.1, render p.1, p.2.1⟩

/-- The document published by the final publish call: every diagram
placeholder substituted by its resolved markup, in ascending ordinal
order. -/
def pipelineFinalHtml (render : Nat → Option String) (parse : String → String)
    (uploadOk : Nat → Bool) (markdown : String) : String :=
  String.mk ((pipelineItems render markdown).foldl
    (fun h it => MdUtil.replaceFirst h (Mermaid.mermaidPlaceholder it.index).data
      (resolvedMarkup uploadOk it).data)
    (SimpleConverter.convertBody true render parse markdown).1.data)

end MainPlugin

namespace Converter

/-- The open-list stack left by `convertLists` after folding the given
lines (head of the list is the top of the stack). -/
def stackAfter (lines : List (List Char)) : List ListFrame :=
  (lines.foldl listStep ([], [])).2

/-- Whether a line is recognized as a list item. -/
def isListLine (line : List Char) : Bool :=
  (matchUnordered line).isSome || (matchOrdered line).isSome

end Converter

namespace MdUtil

/-- Join pieces with a separator (used to characterize newline
replacement independently of the scanner). -/
def joinWith (sep : List Char) : List (List Char) → List Char
  | [] => []
  | [l] => l
  | l :: ls => l ++ sep ++ joinWith sep ls

theorem splitOnChar_ne_nil (sep : Char) (l : List Char) : splitOnChar sep l ≠ [] := by
  cases l with
  | nil => simp [splitOnChar]
  | cons c r =>
    by_cases h : c == sep
    · simp [splitOnChar, h]
    · simp only [splitOnChar, h]
      cases hr : splitOnChar sep r <;> simp

theorem replaceNewlines_eq_joinWith (l : List Char) :
    replaceNewlines l = joinWith "<br />".data (splitOnChar '\n' l) := by
  induction l with
  | nil => rfl
  | cons c r ih =>
    by_cases h : c = '\n'
    · subst h
      have hne := splitOnChar_ne_nil '\n' r
      cases hr : splitOnChar '\n' r with
      | nil => exact absurd hr hne
      | cons p ps =>
        simp only [replaceNewlines, splitOnChar, ih, hr]
        cases ps <;> simp [joinWith]
    · have hb : (c == '\n') = false := by simpa using h
      have hne := splitOnChar_ne_nil '\n' r
      cases hr : splitOnChar '\n' r with
      | nil => exact absurd hr hne
      | cons p ps =>
        rw [show replaceNewlines (c :: r) = c :: replaceNewlines r by
          simp [replaceNewlines, hb], ih, hr]
        simp only [splitOnChar, hb, hr]
        cases ps <;> simp [joinWith]

end MdUtil

/-- Claim C10: for every markdown input, the conversion entry point is
total over any outcome of its internal passes: when the body throws
(`Except.error`), `convert` returns the input wrapped in a paragraph with
every newline rewritten to a line break, together with a null diagram
list, instead of propagating the error; when the body succeeds its result
is returned unchanged.  Totality of `SimpleConverter.convert` itself
models the catch-all `try`/`catch` of the source. -/
theorem claim_C10_convert_never_propagates (markdown : String) :
    (∀ e, SimpleConverter.convert markdown (Except.error e) =
      ("<p>" ++ String.mk (MdUtil.joinWith "<br />".data
          (MdUtil.splitOnChar '\n' markdown.data)) ++ "</p>", none))
    ∧ ∀ r, SimpleConverter.convert markdown (Except.ok r) = r := by
  constructor
  · intro e
    simp [SimpleConverter.convert, MdUtil.replaceNewlines_eq_joinWith]
  · intro r
    rfl

/-- Claim C9: every update first re-reads the page; when the read succeeds
the single PUT which follows carries exactly the freshly read version plus
one; when the read fails no PUT is issued and the failure is surfaced; a
non-2xx PUT status is surfaced as a failure; and in every case at most one
PUT is issued (no retry). -/
theorem claim_C9_update_reads_before_write (pageId content : String)
    (title : Option String) (getResult : Except String ConfluenceApi.PageInfo)
    (putStatus : Nat) (hid : pageId ≠ "") :
    (∀ page, getResult = Except.ok page →
      ∃ t, (ConfluenceApi.updatePage pageId content title getResult putStatus).2 =
        [ConfluenceApi.ApiEvent.getPage pageId,
         ConfluenceApi.ApiEvent.putPage pageId (page.version + 1) t content])
    ∧ (∀ e, getResult = Except.error e →
        (ConfluenceApi.updatePage pageId content title getResult putStatus).2 =
          [ConfluenceApi.ApiEvent.getPage pageId]
        ∧ (ConfluenceApi.updatePage pageId content title getResult putStatus).1 =
          Except.error e)
    ∧ ((putStatus < 200 ∨ 300 ≤ putStatus) →
        ∃ msg, (ConfluenceApi.updatePage pageId content title getResult putStatus).1 =
          Except.error msg)
    ∧ (ConfluenceApi.updatePage pageId content title getResult putStatus).2.countP
        ConfluenceApi.isPut ≤ 1 := by
  have hid' : (pageId == "") = false := by
    simpa using hid
  refine ⟨?_, ?_, ?_, ?_⟩
  · intro page hpage
    subst hpage
    refine ⟨match title with
      | some t => if t == "" then page.title else t
      | none => page.title, ?_⟩
    simp [ConfluenceApi.updatePage, hid', apply_ite]
  · intro e he
    subst he
    simp [ConfluenceApi.updatePage, hid']
  · intro hbad
    cases getResult with
    | error e => exact ⟨e, by simp [ConfluenceApi.updatePage, hid']⟩
    | ok page =>
      refine ⟨"Failed to update page: " ++ toString putStatus, ?_⟩
      have hcond : (putStatus < 200 || 300 ≤ putStatus) = true := by
        rcases hbad with hlt | hge
        · simp [hlt]
        · simp [hge]
      simp [ConfluenceApi.updatePage, hid', hcond]
  · cases getResult with
    | error e =>
      simp [ConfluenceApi.updatePage, hid', List.countP_cons, ConfluenceApi.isPut]
    | ok page =>
      by_cases hcond : (putStatus < 200 || 300 ≤ putStatus) = true
      · simp [ConfluenceApi.updatePage, hid', hcond, List.countP_cons,
          ConfluenceApi.isPut, apply_ite]
      · simp only [Bool.not_eq_true] at hcond
        simp [ConfluenceApi.updatePage, hid', hcond, List.countP_cons,
          ConfluenceApi.isPut, apply_ite]

/-- Concrete instantiation of claim C9: updating page `123` whose current
version reads as `5` issues the GET followed by a PUT at version `6`. -/
theorem claim_C9_witness :
    ("123" : String) ≠ "" ∧
    ∃ t, (ConfluenceApi.updatePage "123" "c" none
        (Except.ok ⟨5, "T"⟩) 409).2 =
      [ConfluenceApi.ApiEvent.getPage "123",
       ConfluenceApi.ApiEvent.putPage "123" 6 t "c"] :=
  ⟨by decide,
   (claim_C9_update_reads_before_write "123" "c" none (Except.ok ⟨5, "T"⟩) 409
     (by decide)).1 ⟨5, "T"⟩ rfl⟩

namespace MainPlugin

theorem resolveDiagram_eq (uploadOk : Nat → Bool) (pageId : String)
    (html : List Char) (it : Mermaid.MermaidItem) :
    resolveDiagram uploadOk pageId html it =
      ((match it.svg with
        | some _ => [Mermaid.PubEvent.upload it.index pageId
            ("mermaid-" ++ toString it.index ++ ".svg")]
        | none => []),
       MdUtil.replaceFirst html (Mermaid.mermaidPlaceholder it.index).data
         (resolvedMarkup uploadOk it).data) := by
  cases hsvg : it.svg with
  | none => simp [resolveDiagram, resolvedMarkup, hsvg]
  | some svg =>
    by_cases hup : uploadOk it.index <;>
      simp [resolveDiagram, resolvedMarkup, hsvg, hup]

theorem resolveDiagrams_eq (uploadOk : Nat → Bool) (pageId : String)
    (items : List Mermaid.MermaidItem) : ∀ html : List Char,
    resolveDiagrams uploadOk pageId html items =
      (items.filterMap (fun it =>
         match it.svg with
         | some _ => some (Mermaid.PubEvent.upload it.index pageId
             ("mermaid-" ++ toString it.index ++ ".svg"))
         | none => none),
       items.foldl (fun h it => MdUtil.replaceFirst h
         (Mermaid.mermaidPlaceholder it.index).data
         (resolvedMarkup uploadOk it).data) html) := by
  induction items with
  | nil => intro html; simp [resolveDiagrams]
  | cons it rest ih =>
    intro html
    simp only [resolveDiagrams, resolveDiagram_eq, List.filterMap_cons, List.foldl_cons, ih]
    cases hsvg : it.svg <;> simp [hsvg]

end MainPlugin

namespace Mermaid

theorem processBlocksAux_spec (render : Nat → Option String)
    (ms : List (String × String)) : ∀ (i : Nat) (processed : List Char),
    (processBlocksAux render i processed ms).2.1 =
      (ms.enumFrom i).map (fun p => (⟨p.1, render p.1, p.2.1⟩ : MermaidItem))
    ∧ (processBlocksAux render i processed ms).2.2 =
      (List.range' i ms.length).map PubEvent.render := by
  induction ms with
  | nil => intro i processed; simp [processBlocksAux]
  | cons cm rest ih =>
    intro i processed
    cases cm with
    | mk code fullMatch =>
      have hr : List.range' i (rest.length + 1) = i :: List.range' (i + 1) rest.length := by
        simpa using List.range'_succ i rest.length 1
      simp only [processBlocksAux, List.enumFrom_cons, List.length_cons, hr, List.map_cons]
      exact ⟨by simp [(ih (i + 1) _).1], by simp [(ih (i + 1) _).2]⟩

theorem processMermaidBlocks_items (render : Nat → Option String) (markdown : String) :
    (processMermaidBlocks render markdown).2.1 =
      (mermaidMatches markdown).enum.map
        (fun p => (⟨p.1, render p.1, p.2.1⟩ : MermaidItem)) := by
  simp only [processMermaidBlocks, List.enum_eq_enumFrom]
  exact (processBlocksAux_spec render (mermaidMatches markdown) 0 markdown.data).1

theorem processMermaidBlocks_events (render : Nat → Option String) (markdown : String) :
    (processMermaidBlocks render markdown).2.2 =
      (List.range (mermaidMatches markdown).length).map PubEvent.render := by
  simp only [processMermaidBlocks, List.range_eq_range']
  exact (processBlocksAux_spec render (mermaidMatches markdown) 0 markdown.data).2

end Mermaid

namespace MainPlugin

theorem publishCalls_map_render (l : List Nat) :
    publishCalls (l.map Mermaid.PubEvent.render) = [] := by
  induction l with
  | nil => rfl
  | cons a l ih => simpa [publishCalls, List.filterMap_cons] using ih

theorem renderOrds_map_render (l : List Nat) :
    renderOrds (l.map Mermaid.PubEvent.render) = l := by
  induction l with
  | nil => rfl
  | cons a l ih => simpa [renderOrds, List.filterMap_cons] using ih

theorem uploadOrds_map_render (l : List Nat) :
    uploadOrds (l.map Mermaid.PubEvent.render) = [] := by
  induction l with
  | nil => rfl
  | cons a l ih => simpa [uploadOrds, List.filterMap_cons] using ih

theorem publishCalls_uploadEvs (pageId : String) (items : List Mermaid.MermaidItem) :
    publishCalls (items.filterMap (uploadEventOf pageId)) = [] := by
  induction items with
  | nil => rfl
  | cons it rest ih =>
    cases hsvg : it.svg <;>
      simpa [uploadEventOf, publishCalls, List.filterMap_cons, hsvg] using ih

theorem renderOrds_uploadEvs (pageId : String) (items : List Mermaid.MermaidItem) :
    renderOrds (items.filterMap (uploadEventOf pageId)) = [] := by
  induction items with
  | nil => rfl
  | cons it rest ih =>
    cases hsvg : it.svg <;>
      simpa [uploadEventOf, renderOrds, List.filterMap_cons, hsvg] using ih

theorem uploadOrds_uploadEvs (pageId : String) (items : List Mermaid.MermaidItem) :
    uploadOrds (items.filterMap (uploadEventOf pageId)) =
      items.filterMap (fun it => if it.svg.isSome then some it.index else none) := by
  induction items with
  | nil => rfl
  | cons it rest ih =>
    cases hsvg : it.svg <;>
      simpa [uploadEventOf, uploadOrds, List.filterMap_cons, hsvg] using ih

theorem enumFrom_filterMap_if {α : Type} (q : Nat → Bool) (ms : List α) : ∀ i : Nat,
    (ms.enumFrom i).filterMap (fun p => if q p.1 then some p.1 else none) =
      (List.range' i ms.length).filter q := by
  induction ms with
  | nil => intro i; rfl
  | cons m rest ih =>
    intro i
    have hr : List.range' i (rest.length + 1) = i :: List.range' (i + 1) rest.length := by
      simpa using List.range'_succ i rest.length 1
    by_cases hq : q i <;>
      simp [List.enumFrom_cons, List.filterMap_cons, hq, hr, List.filter_cons, ih (i + 1)]

theorem getLast?_append_cons_concat {α : Type} (l1 l2 : List α) (a x : α) :
    (l1 ++ a :: (l2 ++ [x])).getLast? = some x := by
  rw [show l1 ++ a :: (l2 ++ [x]) = (l1 ++ a :: l2) ++ [x] by simp]
  exact List.getLast?_concat _

end MainPlugin


namespace MainPlugin

theorem uploadPipeline_trace (render : Nat → Option String) (parse : String → String)
    (uploadOk : Nat → Bool) (pageId markdown : String)
    (h : Mermaid.mermaidMatches markdown ≠ []) :
    uploadPipeline true render parse uploadOk pageId markdown =
      ((List.range (Mermaid.mermaidMatches markdown).length).map Mermaid.PubEvent.render ++
        (Mermaid.PubEvent.publish pageId
            (SimpleConverter.convertBody true render parse markdown).1 ::
          ((pipelineItems render markdown).filterMap (uploadEventOf pageId) ++
            [Mermaid.PubEvent.publish pageId
              (pipelineFinalHtml render parse uploadOk markdown)])),
       pipelineFinalHtml render parse uploadOk markdown) := by
  have hitems : (Mermaid.processMermaidBlocks render markdown).2.1 =
      pipelineItems render markdown := Mermaid.processMermaidBlocks_items render markdown
  have hevs := Mermaid.processMermaidBlocks_events render markdown
  have hlen : 0 < (pipelineItems render markdown).length := by
    simpa [pipelineItems] using List.length_pos.mpr h
  simp only [uploadPipeline, SimpleConverter.convertBody, if_true, performUpload,
    hitems, hevs, hlen, if_pos, resolveDiagrams_eq, pipelineFinalHtml]
  rfl

theorem pipelineFinalHtml_eq (render : Nat → Option String) (parse : String → String)
    (uploadOk : Nat → Bool) (markdown : String) :
    pipelineFinalHtml render parse uploadOk markdown =
      String.mk ((Mermaid.mermaidMatches markdown).enum.foldl
        (fun hh p => MdUtil.replaceFirst hh (Mermaid.mermaidPlaceholder p.1).data
          (if (render p.1).isSome && uploadOk p.1 then
            (Mermaid.generateConfluenceMarkup
              (some ("mermaid-" ++ toString p.1 ++ ".svg")) p.2.1).data
           else (Mermaid.generateConfluenceMarkup none p.2.1).data))
        (SimpleConverter.convertBody true render parse markdown).1.data) := by
  unfold pipelineFinalHtml pipelineItems
  rw [List.foldl_map]
  have hfun : (fun (x : List Char) (y : Nat × (String × String)) =>
      MdUtil.replaceFirst x
        (Mermaid.mermaidPlaceholder
          (⟨y.1, render y.1, y.2.1⟩ : Mermaid.MermaidItem).index).data
        (resolvedMarkup uploadOk (⟨y.1, render y.1, y.2.1⟩ : Mermaid.MermaidItem)).data) =
      (fun hh p =>
        MdUtil.replaceFirst hh (Mermaid.mermaidPlaceholder p.1).data
          (if (render p.1).isSome && uploadOk p.1 then
            (Mermaid.generateConfluenceMarkup
              (some ("mermaid-" ++ toString p.1 ++ ".svg")) p.2.1).data
           else (Mermaid.generateConfluenceMarkup none p.2.1).data)) := by
    funext hh p
    simp only [resolvedMarkup]
    split <;> rfl
  rw [hfun]

theorem publishCalls_append (l1 l2 : List Mermaid.PubEvent) :
    publishCalls (l1 ++ l2) = publishCalls l1 ++ publishCalls l2 := by
  simp [publishCalls, List.filterMap_append]

theorem renderOrds_append (l1 l2 : List Mermaid.PubEvent) :
    renderOrds (l1 ++ l2) = renderOrds l1 ++ renderOrds l2 := by
  simp [renderOrds, List.filterMap_append]

theorem uploadOrds_append (l1 l2 : List Mermaid.PubEvent) :
    uploadOrds (l1 ++ l2) = uploadOrds l1 ++ uploadOrds l2 := by
  simp [uploadOrds, List.filterMap_append]

theorem publishCalls_publish_cons (pid h : String) (l : List Mermaid.PubEvent) :
    publishCalls (Mermaid.PubEvent.publish pid h :: l) = pid :: publishCalls l := by
  simp [publishCalls, List.filterMap_cons]

theorem renderOrds_publish_cons (pid h : String) (l : List Mermaid.PubEvent) :
    renderOrds (Mermaid.PubEvent.publish pid h :: l) = renderOrds l := by
  simp [renderOrds, List.filterMap_cons]

theorem uploadOrds_publish_cons (pid h : String) (l : List Mermaid.PubEvent) :
    uploadOrds (Mermaid.PubEvent.publish pid h :: l) = uploadOrds l := by
  simp [uploadOrds, List.filterMap_cons]

end MainPlugin

/-- Claim C1: for every markdown whose diagram list is non-empty, whatever
the render outcomes and upload outcomes per ordinal, the upload action
still issues the final publish call (it is the last remote call, carrying
the resolved document), and the resolved document substitutes, for every
diagram ordinal, the attachment image reference exactly when render and
upload both succeeded and the fallback code block wrapping that diagram's
original source otherwise; the action performs exactly two publish calls.
No combination of per-diagram failures aborts the batch: the conclusion
holds for every render and upload oracle. -/
theorem claim_C1_diagram_failures_contained (render : Nat → Option String)
    (parse : String → String) (uploadOk : Nat → Bool) (pageId markdown : String)
    (h : Mermaid.mermaidMatches markdown ≠ []) :
    (MainPlugin.uploadPipeline true render parse uploadOk pageId markdown).1.getLast? =
      some (Mermaid.PubEvent.publish pageId
        (MainPlugin.uploadPipeline true render parse uploadOk pageId markdown).2)
    ∧ (MainPlugin.uploadPipeline true render parse uploadOk pageId markdown).2 =
      String.mk ((Mermaid.mermaidMatches markdown).enum.foldl
        (fun hh p => MdUtil.replaceFirst hh (Mermaid.mermaidPlaceholder p.1).data
          (if (render p.1).isSome && uploadOk p.1 then
            (Mermaid.generateConfluenceMarkup
              (some ("mermaid-" ++ toString p.1 ++ ".svg")) p.2.1).data
           else (Mermaid.generateConfluenceMarkup none p.2.1).data))
        (SimpleConverter.convertBody true render parse markdown).1.data)
    ∧ MainPlugin.publishCalls
        (MainPlugin.uploadPipeline true render parse uploadOk pageId markdown).1 =
      [pageId, pageId] := by
  rw [MainPlugin.uploadPipeline_trace render parse uploadOk pageId markdown h]
  refine ⟨?_, ?_, ?_⟩
  · exact MainPlugin.getLast?_append_cons_concat _ _ _ _
  · exact MainPlugin.pipelineFinalHtml_eq render parse uploadOk markdown
  · rw [MainPlugin.publishCalls_append, MainPlugin.publishCalls_publish_cons,
      MainPlugin.publishCalls_append, MainPlugin.publishCalls_map_render,
      MainPlugin.publishCalls_uploadEvs]
    rfl

/-- Concrete instantiation of claim C1: two diagrams, render fails for
ordinal 1, upload succeeds for ordinal 0; the final publish still happens
and is the last call. -/
theorem claim_C1_witness :
    Mermaid.mermaidMatches "a\n```mermaid\nG\n```\nb\n```mermaid\nH\n```\n" ≠ [] ∧
    (MainPlugin.uploadPipeline true (fun i => if i == 0 then some "svg0" else none)
        (fun s => s) (fun _ => true) "42"
        "a\n```mermaid\nG\n```\nb\n```mermaid\nH\n```\n").1.getLast? =
      some (Mermaid.PubEvent.publish "42"
        (MainPlugin.uploadPipeline true (fun i => if i == 0 then some "svg0" else none)
          (fun s => s) (fun _ => true) "42"
          "a\n```mermaid\nG\n```\nb\n```mermaid\nH\n```\n").2) :=
  ⟨by decide,
   (claim_C1_diagram_failures_contained (fun i => if i == 0 then some "svg0" else none)
     (fun s => s) (fun _ => true) "42" "a\n```mermaid\nG\n```\nb\n```mermaid\nH\n```\n"
     (by decide)).1⟩

/-- Claim C2: for source text with `N > 0` diagram blocks (and the mermaid
pipeline enabled), one upload action performs exactly two publish calls,
both against the given target page id; it performs exactly `N` render
attempts (hence at most `N`) in strictly ascending ordinal order, and its
upload attempts are exactly the ordinals whose render produced an SVG —
at most `N` of them, in strictly ascending ordinal order.  The model
resolves each diagram before starting the next, so trace order is
execution order. -/
theorem claim_C2_publish_render_upload_counts (render : Nat → Option String)
    (parse : String → String) (uploadOk : Nat → Bool) (pageId markdown : String)
    (h : 0 < (Mermaid.mermaidMatches markdown).length) :
    MainPlugin.publishCalls
        (MainPlugin.uploadPipeline true render parse uploadOk pageId markdown).1 =
      [pageId, pageId]
    ∧ MainPlugin.renderOrds
        (MainPlugin.uploadPipeline true render parse uploadOk pageId markdown).1 =
      List.range (Mermaid.mermaidMatches markdown).length
    ∧ MainPlugin.uploadOrds
        (MainPlugin.uploadPipeline true render parse uploadOk pageId markdown).1 =
      (List.range (Mermaid.mermaidMatches markdown).length).filter
        (fun i => (render i).isSome)
    ∧ (MainPlugin.renderOrds
        (MainPlugin.uploadPipeline true render parse uploadOk pageId markdown).1).length ≤
      (Mermaid.mermaidMatches markdown).length
    ∧ (MainPlugin.uploadOrds
        (MainPlugin.uploadPipeline true render parse uploadOk pageId markdown).1).length ≤
      (Mermaid.mermaidMatches markdown).length
    ∧ List.Pairwise (· < ·) (MainPlugin.renderOrds
        (MainPlugin.uploadPipeline true render parse uploadOk pageId markdown).1)
    ∧ List.Pairwise (· < ·) (MainPlugin.uploadOrds
        (MainPlugin.uploadPipeline true render parse uploadOk pageId markdown).1) := by
  have hne : Mermaid.mermaidMatches markdown ≠ [] := by
    intro heq
    rw [heq] at h
    exact absurd h (by simp)
  rw [MainPlugin.uploadPipeline_trace render parse uploadOk pageId markdown hne]
  have hpub : MainPlugin.publishCalls
      ((List.range (Mermaid.mermaidMatches markdown).length).map Mermaid.PubEvent.render ++
        (Mermaid.PubEvent.publish pageId
            (SimpleConverter.convertBody true render parse markdown).1 ::
          ((MainPlugin.pipelineItems render markdown).filterMap
              (MainPlugin.uploadEventOf pageId) ++
            [Mermaid.PubEvent.publish pageId
              (MainPlugin.pipelineFinalHtml render parse uploadOk markdown)]))) =
      [pageId, pageId] := by
    rw [MainPlugin.publishCalls_append, MainPlugin.publishCalls_publish_cons,
      MainPlugin.publishCalls_append, MainPlugin.publishCalls_map_render,
      MainPlugin.publishCalls_uploadEvs]
    rfl
  have hrend : MainPlugin.renderOrds
      ((List.range (Mermaid.mermaidMatches markdown).length).map Mermaid.PubEvent.render ++
        (Mermaid.PubEvent.publish pageId
            (SimpleConverter.convertBody true render parse markdown).1 ::
          ((MainPlugin.pipelineItems render markdown).filterMap
              (MainPlugin.uploadEventOf pageId) ++
            [Mermaid.PubEvent.publish pageId
              (MainPlugin.pipelineFinalHtml render parse uploadOk markdown)]))) =
      List.range (Mermaid.mermaidMatches markdown).length := by
    rw [MainPlugin.renderOrds_append, MainPlugin.renderOrds_publish_cons,
      MainPlugin.renderOrds_append, MainPlugin.renderOrds_map_render,
      MainPlugin.renderOrds_uploadEvs]
    simp [MainPlugin.renderOrds]
  have hupl : MainPlugin.uploadOrds
      ((List.range (Mermaid.mermaidMatches markdown).length).map Mermaid.PubEvent.render ++
        (Mermaid.PubEvent.publish pageId
            (SimpleConverter.convertBody true render parse markdown).1 ::
          ((MainPlugin.pipelineItems render markdown).filterMap
              (MainPlugin.uploadEventOf pageId) ++
            [Mermaid.PubEvent.publish pageId
              (MainPlugin.pipelineFinalHtml render parse uploadOk markdown)]))) =
      (List.range (Mermaid.mermaidMatches markdown).length).filter
        (fun i => (render i).isSome) := by
    rw [MainPlugin.uploadOrds_append, MainPlugin.uploadOrds_publish_cons,
      MainPlugin.uploadOrds_append, MainPlugin.uploadOrds_map_render,
      MainPlugin.uploadOrds_uploadEvs]
    have hfm : (MainPlugin.pipelineItems render markdown).filterMap
        (fun it => if it.svg.isSome then some it.index else none) =
        (List.range (Mermaid.mermaidMatches markdown).length).filter
          (fun i => (render i).isSome) := by
      unfold MainPlugin.pipelineItems
      rw [List.filterMap_map, List.range_eq_range']
      have := MainPlugin.enumFrom_filterMap_if (fun i => (render i).isSome)
        (Mermaid.mermaidMatches markdown) 0
      rw [List.enum_eq_enumFrom]
      simpa [Function.comp] using this
    simp [MainPlugin.uploadOrds, hfm]
  refine ⟨hpub, hrend, hupl, ?_, ?_, ?_, ?_⟩
  · rw [hrend]; simp
  · rw [hupl]
    calc ((List.range (Mermaid.mermaidMatches markdown).length).filter
          (fun i => (render i).isSome)).length ≤
        (List.range (Mermaid.mermaidMatches markdown).length).length :=
        List.length_filter_le _ _
      _ = (Mermaid.mermaidMatches markdown).length := List.length_range _
  · rw [hrend]; exact List.pairwise_lt_range _
  · rw [hupl]; exact List.Pairwise.filter _ (List.pairwise_lt_range _)

/-- Concrete instantiation of claim C2: two diagram blocks, render failing
for ordinal 1 — exactly two publishes against the target id, render
ordinals `[0, 1]`, upload ordinals `[0]`. -/
theorem claim_C2_witness :
    0 < (Mermaid.mermaidMatches "a\n```mermaid\nG\n```\nb\n```mermaid\nH\n```\n").length ∧
    MainPlugin.publishCalls
        (MainPlugin.uploadPipeline true (fun i => if i == 0 then some "svg0" else none)
          (fun s => s) (fun _ => true) "42"
          "a\n```mermaid\nG\n```\nb\n```mermaid\nH\n```\n").1 = ["42", "42"] ∧
    MainPlugin.renderOrds
        (MainPlugin.uploadPipeline true (fun i => if i == 0 then some "svg0" else none)
          (fun s => s) (fun _ => true) "42"
          "a\n```mermaid\nG\n```\nb\n```mermaid\nH\n```\n").1 = [0, 1] ∧
    MainPlugin.uploadOrds
        (MainPlugin.uploadPipeline true (fun i => if i == 0 then some "svg0" else none)
          (fun s => s) (fun _ => true) "42"
          "a\n```mermaid\nG\n```\nb\n```mermaid\nH\n```\n").1 = [0] := by
  have hc := claim_C2_publish_render_upload_counts
    (fun i => if i == 0 then some "svg0" else none) (fun s => s) (fun _ => true) "42"
    "a\n```mermaid\nG\n```\nb\n```mermaid\nH\n```\n" (by decide)
  refine ⟨by decide, hc.1, ?_, ?_⟩
  · rw [hc.2.1]; decide
  · rw [hc.2.2.1]; decide

/-- Claim C3: for source text containing no diagram blocks the upload
action consists of exactly one remote call — the single (terminal) publish
of the converted document; no second update, no renders, no uploads. -/
theorem claim_C3_no_diagrams_single_publish (enableMermaid : Bool)
    (render : Nat → Option String) (parse : String → String) (uploadOk : Nat → Bool)
    (pageId markdown : String) (h : Mermaid.mermaidMatches markdown = []) :
    (MainPlugin.uploadPipeline enableMermaid render parse uploadOk pageId markdown).1 =
      [Mermaid.PubEvent.publish pageId
        (SimpleConverter.convertBody enableMermaid render parse markdown).1] := by
  cases enableMermaid with
  | false =>
    simp [MainPlugin.uploadPipeline, SimpleConverter.convertBody, MainPlugin.performUpload]
  | true =>
    have hitems : (Mermaid.processMermaidBlocks render markdown).2.1 = [] := by
      rw [Mermaid.processMermaidBlocks_items render markdown]
      simp [MainPlugin.pipelineItems, h]
    have hevs : (Mermaid.processMermaidBlocks render markdown).2.2 = [] := by
      rw [Mermaid.processMermaidBlocks_events render markdown, h]
      rfl
    simp [MainPlugin.uploadPipeline, SimpleConverter.convertBody,
      MainPlugin.performUpload, hitems, hevs]

/-- Concrete instantiation of claim C3: no diagram blocks, one publish. -/
theorem claim_C3_witness :
    Mermaid.mermaidMatches "# hello\nworld" = [] ∧
    (MainPlugin.uploadPipeline true (fun _ => none) (fun s => s) (fun _ => true)
        "42" "# hello\nworld").1 =
      [Mermaid.PubEvent.publish "42"
        (SimpleConverter.convertBody true (fun _ => none) (fun s => s) "# hello\nworld").1] :=
  ⟨by decide,
   claim_C3_no_diagrams_single_publish true (fun _ => none) (fun s => s) (fun _ => true)
     "42" "# hello\nworld" (by decide)⟩

namespace Converter

theorem cell_wrap_ne (pre post c t : String) (hlen : t.length < pre.length + post.length) :
    pre ++ c ++ post ≠ t := by
  intro heq
  have hl := congrArg String.length heq
  rw [String.length_append, String.length_append] at hl
  omega

theorem count_map_cells_zero (f : String → String) (cells : List String) (t : String)
    (h : ∀ c, f c ≠ t) : (cells.map f).count t = 0 := by
  rw [List.count_eq_zero]
  intro hmem
  obtain ⟨c, _, hc⟩ := List.mem_map.mp hmem
  exact h c hc

theorem convertTablesAux_thead_table_count (fuel : Nat) : ∀ (b : Bool) (lines : List String),
    "<table>" ∉ lines → "<thead>" ∉ lines →
    (convertTablesAux fuel b lines).count "<thead>" =
      (convertTablesAux fuel b lines).count "<table>" := by
  have hth : ∀ c : String, thCell c ≠ "<thead>" := fun c =>
    cell_wrap_ne "<th>" "</th>" c "<thead>" (by decide)
  have hth2 : ∀ c : String, thCell c ≠ "<table>" := fun c =>
    cell_wrap_ne "<th>" "</th>" c "<table>" (by decide)
  have htd : ∀ c : String, tdCell c ≠ "<thead>" := fun c =>
    cell_wrap_ne "<td>" "</td>" c "<thead>" (by decide)
  have htd2 : ∀ c : String, tdCell c ≠ "<table>" := fun c =>
    cell_wrap_ne "<td>" "</td>" c "<table>" (by decide)
  induction fuel with
  | zero =>
    intro b lines _ _
    cases b <;> cases lines <;> simp [convertTablesAux]
  | succ fuel ih =>
    intro b lines h1 h2
    cases lines with
    | nil => cases b <;> simp [convertTablesAux]
    | cons line rest =>
      have hline1 : line ≠ "<table>" := fun he => h1 (he ▸ List.mem_cons_self _ _)
      have hline2 : line ≠ "<thead>" := fun he => h2 (he ▸ List.mem_cons_self _ _)
      have hr1 : "<table>" ∉ rest := fun hm => h1 (List.mem_cons_of_mem _ hm)
      have hr2 : "<thead>" ∉ rest := fun hm => h2 (List.mem_cons_of_mem _ hm)
      by_cases hp : pipeRow line
      · cases rest with
        | nil =>
          cases b <;>
            simp [convertTablesAux, hp, List.count_cons, List.count_append, hline1, hline2,
              count_map_cells_zero tdCell _ _ htd, count_map_cells_zero tdCell _ _ htd2, ih]
        | cons next rest2 =>
          have hn1 : "<table>" ∉ (next :: rest2) := hr1
          have hn2 : "<thead>" ∉ (next :: rest2) := hr2
          have hrr1 : "<table>" ∉ rest2 := fun hm => hr1 (List.mem_cons_of_mem _ hm)
          have hrr2 : "<thead>" ∉ rest2 := fun hm => hr2 (List.mem_cons_of_mem _ hm)
          by_cases hs : isSepRow next
          · cases b <;>
              simp [convertTablesAux, hp, hs, List.count_cons, List.count_append,
                count_map_cells_zero thCell _ _ hth, count_map_cells_zero thCell _ _ hth2,
                ih true rest2 hrr1 hrr2]
          · cases b <;>
              simp [convertTablesAux, hp, hs, List.count_cons, List.count_append, hline1, hline2,
                count_map_cells_zero tdCell _ _ htd, count_map_cells_zero tdCell _ _ htd2,
                ih _ (next :: rest2) hn1 hn2]
      · cases b <;>
          simp [convertTablesAux, hp, List.count_cons, hline1, hline2, ih _ rest hr1 hr2]

end Converter

/-- Claim C6: outside an active table, a pipe-delimited line immediately
followed by a separator line opens a table with that line as its header
section (table and header openings, the header cells, the header close and
body opening, with the separator consumed), and the machine continues
in-table on the remaining lines; a pipe-delimited line whose following
line is not a separator (or that is the last line) opens no table and is
emitted unchanged, the machine restarting on the remaining lines. -/
theorem claim_C6_table_detection (line : String) (h : Converter.pipeRow line = true) :
    (∀ (next : String) (rest : List String), Converter.isSepRow next = true →
      Converter.convertTablesRun (line :: next :: rest) =
        ["<table>", "<thead>", "<tr>"] ++ (Converter.cellsOf line).map Converter.thCell ++
          ["</tr>", "</thead>", "<tbody>"] ++
          Converter.convertTablesAux (rest.length + 1) true rest)
    ∧ (∀ (next : String) (rest : List String), Converter.isSepRow next = false →
      Converter.convertTablesRun (line :: next :: rest) =
        line :: Converter.convertTablesRun (next :: rest))
    ∧ Converter.convertTablesRun [line] = [line] := by
  refine ⟨?_, ?_, ?_⟩
  · intro next rest hsep
    simp [Converter.convertTablesRun, Converter.convertTablesAux, h, hsep]
  · intro next rest hsep
    simp [Converter.convertTablesRun, Converter.convertTablesAux, h, hsep]
  · simp [Converter.convertTablesRun, Converter.convertTablesAux, h]

/-- Concrete instantiation of claim C6: `|a|b|` followed by `|-|-|` opens
a table with header cells `a`, `b`; `|a|b|` followed by a plain line is
passed through unchanged. -/
theorem claim_C6_witness :
    Converter.pipeRow "|a|b|" = true ∧
    Converter.convertTablesRun ["|a|b|", "|-|-|"] =
      ["<table>", "<thead>", "<tr>", "<th>a</th>", "<th>b</th>", "</tr>", "</thead>",
       "<tbody>", "</tbody>", "</table>"] ∧
    Converter.convertTablesRun ["|a|b|", "plain"] = ["|a|b|", "plain"] := by
  refine ⟨by decide, ?_, ?_⟩
  · rw [(claim_C6_table_detection "|a|b|" (by decide)).1 "|-|-|" [] (by decide)]
    decide
  · rw [(claim_C6_table_detection "|a|b|" (by decide)).2.1 "plain" [] (by decide)]
    decide

/-- Claim C7 fails on the code: when a pipe row followed by a separator
occurs while a table is already open, the recognizer emits a second header
row, a second header-section terminator and a second body opening into the
same table element.  On the input below the output contains exactly one
table (one `<table>`, one `</table>`) but two `</thead>` and two `<tbody>`
elements — a single emitted table with two header sections, contradicting
the claim (which would force at most one `</thead>` per `<table>`). -/
theorem claim_C7_counterexample :
    Converter.convertTablesRun ["|h|", "|-|", "|x|", "|h2|", "|-|", "|y|"] =
      ["<table>", "<thead>", "<tr>", "<th>h</th>", "</tr>", "</thead>", "<tbody>",
       "<tr>", "<td>x</td>", "</tr>", "<tr>", "<th>h2</th>", "</tr>", "</thead>",
       "<tbody>", "<tr>", "<td>y</td>", "</tr>", "</tbody>", "</table>"]
    ∧ (Converter.convertTablesRun ["|h|", "|-|", "|x|", "|h2|", "|-|", "|y|"]).count
        "<table>" = 1
    ∧ (Converter.convertTablesRun ["|h|", "|-|", "|x|", "|h2|", "|-|", "|y|"]).count
        "</table>" = 1
    ∧ (Converter.convertTablesRun ["|h|", "|-|", "|x|", "|h2|", "|-|", "|y|"]).count
        "</thead>" = 2
    ∧ (Converter.convertTablesRun ["|h|", "|-|", "|x|", "|h2|", "|-|", "|y|"]).count
        "<tbody>" = 2
    ∧ ¬((Converter.convertTablesRun ["|h|", "|-|", "|x|", "|h2|", "|-|", "|y|"]).count
          "</thead>" ≤
        (Converter.convertTablesRun ["|h|", "|-|", "|x|", "|h2|", "|-|", "|y|"]).count
          "<table>") := by
  decide

/-- Claim C7 as amended: every emitted table contains exactly one
header-opening tag — over any input whose lines are not literally the
`<table>` or `<thead>` tag, the recognizer emits exactly as many `<thead>`
openings as `<table>` openings; but a pipe row followed by a separator
occurring while a table is open emits an additional header row,
header-section terminator and body opening into the same table, so a
single emitted table element can contain two header sections. -/
theorem claim_C7_one_header_open_per_table (lines : List String)
    (h1 : "<table>" ∉ lines) (h2 : "<thead>" ∉ lines) :
    (Converter.convertTablesRun lines).count "<thead>" =
      (Converter.convertTablesRun lines).count "<table>" :=
  Converter.convertTablesAux_thead_table_count lines.length false lines h1 h2

/-- Concrete instantiation of the amended claim C7. -/
theorem claim_C7_witness :
    "<table>" ∉ ["|h|", "|-|", "|x|", "|h2|", "|-|", "|y|"] ∧
    "<thead>" ∉ ["|h|", "|-|", "|x|", "|h2|", "|-|", "|y|"] ∧
    (Converter.convertTablesRun ["|h|", "|-|", "|x|", "|h2|", "|-|", "|y|"]).count
        "<thead>" =
      (Converter.convertTablesRun ["|h|", "|-|", "|x|", "|h2|", "|-|", "|y|"]).count
        "<table>" :=
  ⟨by decide, by decide,
   claim_C7_one_header_open_per_table ["|h|", "|-|", "|x|", "|h2|", "|-|", "|y|"]
     (by decide) (by decide)⟩

/-- Claim C4 fails on the code: the code-span guard's placeholder
`__CODEBLOCK_0__` is itself rewritten by the `__(.+?)__` strong-emphasis
rule before the restore step runs, so the restore finds no placeholder and
the code content is lost.  Converting the one-code-span document `` `x` ``
yields `<strong>CODEBLOCK_0</strong>`: no code markup, no placeholder, and
not even the code character `x` survives — the conversion is not lossless
for code content. -/
theorem claim_C4_code_span_lost :
    Converter.convert "`x`" = "<strong>CODEBLOCK_0</strong>"
    ∧ MdUtil.containsSub (Converter.convert "`x`").data "<code>".data = false
    ∧ MdUtil.containsSub (Converter.convert "`x`").data "x".data = false
    ∧ MdUtil.containsSub (Converter.convert "`x`").data
        (Converter.createCodeBlockPlaceholder 0).data = false := by
  decide

namespace Converter

theorem dropWhile_head_false {α : Type} (p : α → Bool) :
    ∀ (l : List α) (a : α) (l' : List α), l.dropWhile p = a :: l' → p a = false := by
  intro l
  induction l with
  | nil => intro a l' h; simp [List.dropWhile] at h
  | cons x xs ih =>
    intro a l' h
    by_cases hx : p x
    · rw [List.dropWhile_cons_of_pos hx] at h
      exact ih a l' h
    · rw [List.dropWhile_cons_of_neg hx] at h
      cases h
      simpa using hx

theorem chain'_dropWhile {α : Type} {R : α → α → Prop} (p : α → Bool) :
    ∀ (l : List α), List.Chain' R l → List.Chain' R (l.dropWhile p) := by
  intro l
  induction l with
  | nil => intro h; simpa using h
  | cons x xs ih =>
    intro h
    by_cases hx : p x
    · rw [List.dropWhile_cons_of_pos hx]
      exact ih h.tail
    · rwa [List.dropWhile_cons_of_neg hx]

theorem popDeeper_snd (ind : Nat) : ∀ (res : List String) (stack : List ListFrame),
    (popDeeper ind res stack).2 = stack.dropWhile (fun f => decide (ind < f.indent)) := by
  intro res stack
  induction stack generalizing res with
  | nil => rfl
  | cons f rest ih =>
    by_cases hf : ind < f.indent
    · rw [List.dropWhile_cons_of_pos (by simpa using hf)]
      simp only [popDeeper, if_pos hf]
      exact ih _
    · rw [List.dropWhile_cons_of_neg (by simpa using hf)]
      simp [popDeeper, if_neg hf]

theorem handleListItem_stack_inv (res : List String) (stack : List ListFrame)
    (k : LKind) (ind : Nat) (text : List Char)
    (h : List.Chain' (fun a b => b.indent < a.indent) stack) :
    List.Chain' (fun a b => b.indent < a.indent)
      (handleListItem res stack k ind text).2 := by
  have hdrop := popDeeper_snd ind res stack
  have hchain : List.Chain' (fun a b => b.indent < a.indent) (popDeeper ind res stack).2 := by
    rw [hdrop]; exact chain'_dropWhile _ _ h
  unfold handleListItem
  cases hst : (popDeeper ind res stack).2 with
  | nil => simp [hst]
  | cons f rest =>
    have hf : f.indent ≤ ind := by
      have := dropWhile_head_false _ _ f rest (hdrop ▸ hst)
      simpa using this
    rw [hst] at hchain
    by_cases hlt : f.indent < ind
    · simp only [hst, if_pos hlt]
      exact List.Chain'.cons hlt hchain
    · have heq : f.indent = ind := Nat.le_antisymm hf (Nat.not_lt.mp hlt)
      by_cases hk : f.kind ≠ k
      · simp only [hst, if_neg hlt, if_pos hk]
        cases rest with
        | nil => simp
        | cons g rest' =>
          have hg : g.indent < f.indent := (List.chain'_cons.mp hchain).1
          exact List.Chain'.cons (heq ▸ hg) (List.chain'_cons.mp hchain).2
      · simp only [hst, if_neg hlt, if_neg hk]
        exact hchain

theorem listStep_stack_inv (pst : List String × List ListFrame) (line : List Char)
    (h : List.Chain' (fun a b => b.indent < a.indent) pst.2) :
    List.Chain' (fun a b => b.indent < a.indent) (listStep pst line).2 := by
  cases pst with
  | mk res stack =>
    cases hu : matchUnordered line with
    | some p =>
      cases p with
      | mk ind text =>
        simp only [listStep, hu]
        exact handleListItem_stack_inv res stack LKind.ul ind text h
    | none =>
      cases ho : matchOrdered line with
      | some p =>
        cases p with
        | mk ind text =>
          simp only [listStep, hu, ho]
          exact handleListItem_stack_inv res stack LKind.ol ind text h
      | none => simp [listStep, hu, ho]

theorem foldl_listStep_stack_inv (lines : List (List Char)) :
    ∀ (pst : List String × List ListFrame),
    List.Chain' (fun a b => b.indent < a.indent) pst.2 →
    List.Chain' (fun a b => b.indent < a.indent) (lines.foldl listStep pst).2 := by
  induction lines with
  | nil => intro pst h; simpa using h
  | cons line rest ih =>
    intro pst h
    rw [List.foldl_cons]
    exact ih _ (listStep_stack_inv pst line h)

end Converter

/-- Claim C5: after processing each line of the input, the open-list stack
has strictly increasing indentation from bottom to top (the head of the
modelled stack is the top, so indents strictly decrease head to tail),
hence no two adjacent frames share both kind and indent; and whenever the
just-processed line is not a list item the stack is empty. -/
theorem claim_C5_list_stack_invariants (lines : List (List Char)) (i : Nat)
    (h : i < lines.length) :
    List.Chain' (fun a b => b.indent < a.indent)
      (Converter.stackAfter (lines.take (i + 1)))
    ∧ List.Chain' (fun a b => ¬(a.kind = b.kind ∧ a.indent = b.indent))
        (Converter.stackAfter (lines.take (i + 1)))
    ∧ (Converter.isListLine lines[i] = false →
        Converter.stackAfter (lines.take (i + 1)) = []) := by
  have hinv : List.Chain' (fun a b => b.indent < a.indent)
      (Converter.stackAfter (lines.take (i + 1))) :=
    Converter.foldl_listStep_stack_inv _ ([], []) (by simp)
  refine ⟨hinv, ?_, ?_⟩
  · refine List.Chain'.imp ?_ hinv
    intro a b hab
    rintro ⟨_, hieq⟩
    omega
  · intro hnl
    have hmu : Converter.matchUnordered lines[i] = none := by
      rcases hmu : Converter.matchUnordered lines[i] with _ | p
      · rfl
      · exfalso
        simp [Converter.isListLine, hmu] at hnl
    have hmo : Converter.matchOrdered lines[i] = none := by
      rcases hmo : Converter.matchOrdered lines[i] with _ | p
      · rfl
      · exfalso
        simp [Converter.isListLine, hmo] at hnl
    have htake : lines.take (i + 1) = lines.take i ++ [lines[i]] := by
      rw [List.take_succ, List.getElem?_eq_getElem h]
      rfl
    unfold Converter.stackAfter
    rw [htake, List.foldl_append]
    simp [Converter.listStep, hmu, hmo]

/-- Concrete instantiation of claim C5 on a nested list followed by a
non-list line. -/
theorem claim_C5_witness :
    2 < (["- a".data, "  - b".data, "x".data] : List (List Char)).length ∧
    (List.Chain' (fun a b => b.indent < a.indent)
      (Converter.stackAfter (["- a".data, "  - b".data, "x".data].take (2 + 1)))
    ∧ List.Chain' (fun a b => ¬(a.kind = b.kind ∧ a.indent = b.indent))
        (Converter.stackAfter (["- a".data, "  - b".data, "x".data].take (2 + 1)))
    ∧ (Converter.isListLine ["- a".data, "  - b".data, "x".data][2] = false →
        Converter.stackAfter (["- a".data, "  - b".data, "x".data].take (2 + 1)) = [])) :=
  ⟨by decide,
   claim_C5_list_stack_invariants ["- a".data, "  - b".data, "x".data] 2 (by decide)⟩

namespace SimpleConverter

theorem ws_toLower_ne_lt (c : Char) (h : MdUtil.isWsChar c = true) :
    (c.toLower == '<') = false := by
  simp only [MdUtil.isWsChar, Bool.or_eq_true, beq_iff_eq] at h
  rcases h with ((((h | h) | h) | h) | h) | h <;> subst h <;> decide

theorem takeWhile_ws_break (ws : List Char) (x : Char) (tail : List Char)
    (hws : ∀ y ∈ ws, MdUtil.isWsChar y = true) (hx : MdUtil.isWsChar x = false) :
    (ws ++ x :: tail).takeWhile MdUtil.isWsChar = ws := by
  induction ws with
  | nil => simp [List.takeWhile, hx]
  | cons w ws ih =>
    have hw : MdUtil.isWsChar w = true := hws w (List.mem_cons_self _ _)
    simp only [List.cons_append, List.takeWhile_cons, hw, if_true]
    rw [ih (fun y hy => hws y (List.mem_cons_of_mem _ hy))]

theorem drop_ws_break (ws : List Char) (x : Char) (tail : List Char)
    (hws : ∀ y ∈ ws, MdUtil.isWsChar y = true) (hx : MdUtil.isWsChar x = false) :
    (ws ++ x :: tail).drop ((ws ++ x :: tail).takeWhile MdUtil.isWsChar).length =
      x :: tail := by
  rw [takeWhile_ws_break ws x tail hws hx]
  exact List.drop_left ws (x :: tail)

theorem emptyTagScan_nil (tag repl : List Char) (fuel : Nat) :
    emptyTagScan tag repl fuel [] = [] := by
  cases fuel <;> rfl

theorem emptyTagScan_advance (tag repl : List Char) (fuel : Nat) (c : Char)
    (rest : List Char) (h : prefixCI tag (c :: rest) = false) :
    emptyTagScan tag repl (fuel + 1) (c :: rest) = c :: emptyTagScan tag repl fuel rest := by
  simp [emptyTagScan, h]

theorem emptyTagScan_skip (tag repl : List Char) (t' : List Char) (htag : tag = '<' :: t') :
    ∀ (s : List Char) (fuel : Nat), (∀ c ∈ s, (c.toLower == '<') = false) →
      emptyTagScan tag repl fuel s = s := by
  intro s
  induction s with
  | nil => intro fuel _; exact emptyTagScan_nil tag repl fuel
  | cons c rest ih =>
    intro fuel hcs
    have hc : (c.toLower == '<') = false := hcs c (List.mem_cons_self _ _)
    have hr : ∀ x ∈ rest, (x.toLower == '<') = false :=
      fun x hx => hcs x (List.mem_cons_of_mem _ hx)
    cases fuel with
    | zero => rfl
    | succ fuel =>
      have hpre : prefixCI tag (c :: rest) = false := by
        rw [htag]
        simp [prefixCI, hc]
      rw [emptyTagScan_advance tag repl fuel c rest hpre, ih fuel hr]

theorem emptyTagScan_fire (tag repl : List Char) (fuel : Nat) (c : Char)
    (rest ws tail : List Char) (hpre : prefixCI tag (c :: rest) = true)
    (hdrop : (c :: rest).drop tag.length = ws ++ '>' :: tail)
    (hws : ∀ x ∈ ws, MdUtil.isWsChar x = true) :
    emptyTagScan tag repl (fuel + 1) (c :: rest) =
      repl ++ emptyTagScan tag repl fuel tail := by
  simp only [emptyTagScan, hpre, if_true, hdrop,
    drop_ws_break ws '>' tail hws (by decide)]

theorem emptyTagScan_advance2 (tag repl : List Char) (fuel : Nat) (c : Char)
    (rest ws tail : List Char) (x : Char)
    (hdrop : (c :: rest).drop tag.length = ws ++ x :: tail)
    (hws : ∀ y ∈ ws, MdUtil.isWsChar y = true) (hx : MdUtil.isWsChar x = false)
    (hx2 : x ≠ '>') :
    emptyTagScan tag repl (fuel + 1) (c :: rest) = c :: emptyTagScan tag repl fuel rest := by
  by_cases hpre : prefixCI tag (c :: rest)
  · simp only [emptyTagScan, hpre, if_true, hdrop, drop_ws_break ws x tail hws hx]
    split
    · rename_i rest2 heq
      cases heq
      exact absurd rfl hx2
    · rfl
  · simp [emptyTagScan, hpre]

end SimpleConverter

namespace SimpleConverter

theorem slashTagScan_nil (tag repl : List Char) (fuel : Nat) :
    slashTagScan tag repl fuel [] = [] := by
  cases fuel <;> rfl

theorem slashTagScan_advance (tag repl : List Char) (fuel : Nat) (c : Char)
    (rest : List Char) (h : prefixCI tag (c :: rest) = false) :
    slashTagScan tag repl (fuel + 1) (c :: rest) = c :: slashTagScan tag repl fuel rest := by
  simp [slashTagScan, h]

theorem slashTagScan_skip (tag repl : List Char) (t' : List Char) (htag : tag = '<' :: t') :
    ∀ (s : List Char) (fuel : Nat), (∀ c ∈ s, (c.toLower == '<') = false) →
      slashTagScan tag repl fuel s = s := by
  intro s
  induction s with
  | nil => intro fuel _; exact slashTagScan_nil tag repl fuel
  | cons c rest ih =>
    intro fuel hcs
    have hc : (c.toLower == '<') = false := hcs c (List.mem_cons_self _ _)
    have hr : ∀ x ∈ rest, (x.toLower == '<') = false :=
      fun x hx => hcs x (List.mem_cons_of_mem _ hx)
    cases fuel with
    | zero => rfl
    | succ fuel =>
      have hpre : prefixCI tag (c :: rest) = false := by
        rw [htag]
        simp [prefixCI, hc]
      rw [slashTagScan_advance tag repl fuel c rest hpre, ih fuel hr]

theorem slashTagScan_fire (tag repl : List Char) (fuel : Nat) (c : Char)
    (rest ws1 ws2 tail : List Char) (hpre : prefixCI tag (c :: rest) = true)
    (hdrop : (c :: rest).drop tag.length = ws1 ++ '/' :: (ws2 ++ '>' :: tail))
    (hws1 : ∀ x ∈ ws1, MdUtil.isWsChar x = true)
    (hws2 : ∀ x ∈ ws2, MdUtil.isWsChar x = true) :
    slashTagScan tag repl (fuel + 1) (c :: rest) =
      repl ++ slashTagScan tag repl fuel tail := by
  simp only [slashTagScan, hpre, if_true, hdrop,
    drop_ws_break ws1 '/' (ws2 ++ '>' :: tail) hws1 (by decide),
    drop_ws_break ws2 '>' tail hws2 (by decide)]

theorem imgTagScan_nil (fuel : Nat) : imgTagScan fuel [] = [] := by
  cases fuel <;> rfl

theorem imgTagScan_advance (fuel : Nat) (c : Char) (rest : List Char)
    (h : prefixCI "<img".data (c :: rest) = false) :
    imgTagScan (fuel + 1) (c :: rest) = c :: imgTagScan fuel rest := by
  simp [imgTagScan, h]

theorem imgTagScan_skip :
    ∀ (s : List Char) (fuel : Nat), (∀ c ∈ s, (c.toLower == '<') = false) →
      imgTagScan fuel s = s := by
  intro s
  induction s with
  | nil => intro fuel _; exact imgTagScan_nil fuel
  | cons c rest ih =>
    intro fuel hcs
    have hc : (c.toLower == '<') = false := hcs c (List.mem_cons_self _ _)
    have hr : ∀ x ∈ rest, (x.toLower == '<') = false :=
      fun x hx => hcs x (List.mem_cons_of_mem _ hx)
    cases fuel with
    | zero => rfl
    | succ fuel =>
      have hpre : prefixCI "<img".data (c :: rest) = false := by
        simp [prefixCI, hc]
      rw [imgTagScan_advance fuel c rest hpre, ih fuel hr]

theorem takeWhile_ne_gt_break (body : List Char) (tail : List Char)
    (hb : ∀ x ∈ body, (x != '>') = true) :
    (body ++ '>' :: tail).takeWhile (fun d => d != '>') = body := by
  induction body with
  | nil => simp [List.takeWhile]
  | cons b bs ih =>
    have hbh : (b != '>') = true := hb b (List.mem_cons_self _ _)
    simp only [List.cons_append, List.takeWhile_cons, hbh, if_true]
    rw [ih (fun x hx => hb x (List.mem_cons_of_mem _ hx))]

theorem imgTagScan_fire (fuel : Nat) (c : Char) (rest body tail : List Char)
    (hpre : prefixCI "<img".data (c :: rest) = true)
    (hdrop : (c :: rest).drop 4 = body ++ '>' :: tail)
    (hbody : ∀ x ∈ body, (x != '>') = true)
    (hne : body.isEmpty = false) (hlast : (body.getLast? == some '/') = false) :
    imgTagScan (fuel + 1) (c :: rest) =
      "<img".data ++ body ++ "/>".data ++ imgTagScan fuel tail := by
  have hlen : "<img".data.length = 4 := by decide
  have htw := takeWhile_ne_gt_break body tail hbody
  simp only [imgTagScan, hpre, if_true, hlen, hdrop, htw,
    List.drop_left body ('>' :: tail), hne, hlast, Bool.or_self, Bool.false_eq_true,
    if_false, List.append_assoc]

theorem removeAllCI_nil (pat : List Char) (fuel : Nat) :
    removeAllCI pat fuel [] = [] := by
  cases fuel <;> rfl

theorem removeAllCI_advance (pat : List Char) (fuel : Nat) (c : Char) (rest : List Char)
    (h : prefixCI pat (c :: rest) = false) :
    removeAllCI pat (fuel + 1) (c :: rest) = c :: removeAllCI pat fuel rest := by
  simp [removeAllCI, h]

theorem removeAllCI_skip (pat : List Char) (t' : List Char) (hpat : pat = '<' :: t') :
    ∀ (s : List Char) (fuel : Nat), (∀ c ∈ s, (c.toLower == '<') = false) →
      removeAllCI pat fuel s = s := by
  intro s
  induction s with
  | nil => intro fuel _; exact removeAllCI_nil pat fuel
  | cons c rest ih =>
    intro fuel hcs
    have hc : (c.toLower == '<') = false := hcs c (List.mem_cons_self _ _)
    have hr : ∀ x ∈ rest, (x.toLower == '<') = false :=
      fun x hx => hcs x (List.mem_cons_of_mem _ hx)
    cases fuel with
    | zero => rfl
    | succ fuel =>
      have hpre : prefixCI pat (c :: rest) = false := by
        rw [hpat]
        simp [prefixCI, hc]
      rw [removeAllCI_advance pat fuel c rest hpre, ih fuel hr]

theorem trimChars_eq_self (l : List Char)
    (h1 : ∀ c, l.head? = some c → MdUtil.isWsChar c = false)
    (h2 : ∀ c, l.getLast? = some c → MdUtil.isWsChar c = false) :
    MdUtil.trimChars l = l := by
  unfold MdUtil.trimChars
  have hd : l.dropWhile MdUtil.isWsChar = l := by
    cases l with
    | nil => rfl
    | cons c rest => exact List.dropWhile_cons_of_neg (by simp [h1 c rfl])
  rw [hd]
  have hrv : l.reverse.dropWhile MdUtil.isWsChar = l.reverse := by
    cases hlr : l.reverse with
    | nil => rfl
    | cons c rest =>
      have : l.getLast? = some c := by
        rw [← List.head?_reverse, hlr]
        rfl
      rw [← hlr]
      rw [hlr]
      exact List.dropWhile_cons_of_neg (by simp [h2 c this])
  rw [hrv, List.reverse_reverse]

end SimpleConverter

namespace SimpleConverter

theorem cleanup_hr_empty (ws : List Char) (hws : ∀ c ∈ ws, MdUtil.isWsChar c = true) :
    cleanupXhtml (String.mk ('<' :: 'h' :: 'r' :: (ws ++ ['>']))) = "<hr/>" := by
  have htrim : MdUtil.trimChars ('<' :: 'h' :: 'r' :: (ws ++ ['>'])) =
      '<' :: 'h' :: 'r' :: (ws ++ ['>']) := by
    apply trimChars_eq_self
    · intro c hc
      simp only [List.head?_cons, Option.some.injEq] at hc
      subst hc
      decide
    · intro c hc
      rw [show '<' :: 'h' :: 'r' :: (ws ++ ['>']) = ('<' :: 'h' :: 'r' :: ws) ++ ['>'] by
        simp] at hc
      rw [List.getLast?_concat] at hc
      cases hc
      decide
  have hpre : prefixCI "<hr".data ('<' :: 'h' :: 'r' :: (ws ++ ['>'])) = true := by
    simp only [prefixCI]
    decide
  have hfire := emptyTagScan_fire "<hr".data "<hr/>".data (ws.length + 3) '<'
    ('h' :: 'r' :: (ws ++ ['>'])) ws [] hpre (by simp) hws
  simp only [cleanupXhtml]
  rw [htrim]
  rw [show ('<' :: 'h' :: 'r' :: (ws ++ ['>'])).length = ws.length + 3 + 1 by
    simp [List.length_append]]
  rw [hfire, emptyTagScan_nil]
  decide

end SimpleConverter

namespace SimpleConverter

theorem cleanup_hr_slash (ws1 ws2 : List Char)
    (hws1 : ∀ c ∈ ws1, MdUtil.isWsChar c = true)
    (hws2 : ∀ c ∈ ws2, MdUtil.isWsChar c = true) :
    cleanupXhtml (String.mk ('<' :: 'h' :: 'r' :: (ws1 ++ '/' :: (ws2 ++ ['>'])))) =
      "<hr/>" := by
  have hrest : ∀ c ∈ 'h' :: 'r' :: (ws1 ++ '/' :: (ws2 ++ ['>'])),
      (c.toLower == '<') = false := by
    intro c hc
    simp only [List.mem_cons, List.mem_append, List.mem_singleton] at hc
    rcases hc with rfl | rfl | h | rfl | h | rfl | h
    · decide
    · decide
    · exact ws_toLower_ne_lt c (hws1 c h)
    · decide
    · exact ws_toLower_ne_lt c (hws2 c h)
    · decide
    · exact absurd h (List.not_mem_nil c)
  have htrim : MdUtil.trimChars ('<' :: 'h' :: 'r' :: (ws1 ++ '/' :: (ws2 ++ ['>']))) =
      '<' :: 'h' :: 'r' :: (ws1 ++ '/' :: (ws2 ++ ['>'])) := by
    apply trimChars_eq_self
    · intro c hc
      simp only [List.head?_cons, Option.some.injEq] at hc
      subst hc
      decide
    · intro c hc
      rw [show '<' :: 'h' :: 'r' :: (ws1 ++ '/' :: (ws2 ++ ['>'])) =
        ('<' :: 'h' :: 'r' :: (ws1 ++ '/' :: ws2)) ++ ['>'] by simp] at hc
      rw [List.getLast?_concat] at hc
      cases hc
      decide
  have hadv := emptyTagScan_advance2 "<hr".data "<hr/>".data
    (ws1.length + ws2.length + 4) '<' ('h' :: 'r' :: (ws1 ++ '/' :: (ws2 ++ ['>'])))
    ws1 (ws2 ++ ['>']) '/' (by simp) hws1 (by decide) (by decide)
  have hpre2 : prefixCI "<hr".data ('<' :: 'h' :: 'r' :: (ws1 ++ '/' :: (ws2 ++ ['>']))) =
      true := by
    simp only [prefixCI]
    decide
  have hfire := slashTagScan_fire "<hr".data "<hr/>".data (ws1.length + ws2.length + 4)
    '<' ('h' :: 'r' :: (ws1 ++ '/' :: (ws2 ++ ['>']))) ws1 ws2 [] hpre2 (by simp) hws1 hws2
  simp only [cleanupXhtml]
  rw [htrim]
  rw [show ('<' :: 'h' :: 'r' :: (ws1 ++ '/' :: (ws2 ++ ['>']))).length =
    ws1.length + ws2.length + 4 + 1 by simp [List.length_append] <;> omega]
  rw [hadv]
  rw [emptyTagScan_skip "<hr".data "<hr/>".data "hr".data rfl _ _ hrest]
  rw [show ('<' :: 'h' :: 'r' :: (ws1 ++ '/' :: (ws2 ++ ['>']))).length =
    ws1.length + ws2.length + 4 + 1 by simp [List.length_append] <;> omega]
  rw [hfire, slashTagScan_nil]
  decide

end SimpleConverter

namespace SimpleConverter

theorem cleanup_br_empty (ws : List Char) (hws : ∀ c ∈ ws, MdUtil.isWsChar c = true) :
    cleanupXhtml (String.mk ('<' :: 'b' :: 'r' :: (ws ++ ['>']))) = "<br/>" := by
  have hrest : ∀ c ∈ 'b' :: 'r' :: (ws ++ ['>']), (c.toLower == '<') = false := by
    intro c hc
    simp only [List.mem_cons, List.mem_append, List.mem_singleton] at hc
    rcases hc with rfl | rfl | h | rfl | h
    · decide
    · decide
    · exact ws_toLower_ne_lt c (hws c h)
    · decide
    · exact absurd h (List.not_mem_nil c)
  have htrim : MdUtil.trimChars ('<' :: 'b' :: 'r' :: (ws ++ ['>'])) =
      '<' :: 'b' :: 'r' :: (ws ++ ['>']) := by
    apply trimChars_eq_self
    · intro c hc
      simp only [List.head?_cons, Option.some.injEq] at hc
      subst hc
      decide
    · intro c hc
      rw [show '<' :: 'b' :: 'r' :: (ws ++ ['>']) = ('<' :: 'b' :: 'r' :: ws) ++ ['>'] by
        simp] at hc
      rw [List.getLast?_concat] at hc
      cases hc
      decide
  have hpre1 : prefixCI "<hr".data ('<' :: 'b' :: 'r' :: (ws ++ ['>'])) = false := by
    have hb : ('b'.toLower == 'h') = false := by decide
    simp [prefixCI, hb]
  have hpre3 : prefixCI "<br".data ('<' :: 'b' :: 'r' :: (ws ++ ['>'])) = true := by
    simp only [prefixCI]
    decide
  have hfire := emptyTagScan_fire "<br".data "<br/>".data (ws.length + 3) '<'
    ('b' :: 'r' :: (ws ++ ['>'])) ws [] hpre3 (by simp) hws
  simp only [cleanupXhtml]
  rw [htrim]
  rw [show ('<' :: 'b' :: 'r' :: (ws ++ ['>'])).length = ws.length + 3 + 1 by
    simp [List.length_append]]
  rw [emptyTagScan_advance _ _ _ _ _ hpre1]
  rw [emptyTagScan_skip "<hr".data "<hr/>".data "hr".data rfl _ _ hrest]
  rw [show ('<' :: 'b' :: 'r' :: (ws ++ ['>'])).length = ws.length + 3 + 1 by
    simp [List.length_append]]
  rw [slashTagScan_advance _ _ _ _ _ hpre1]
  rw [slashTagScan_skip "<hr".data "<hr/>".data "hr".data rfl _ _ hrest]
  rw [show ('<' :: 'b' :: 'r' :: (ws ++ ['>'])).length = ws.length + 3 + 1 by
    simp [List.length_append]]
  rw [hfire, emptyTagScan_nil]
  decide

theorem cleanup_br_slash (ws1 ws2 : List Char)
    (hws1 : ∀ c ∈ ws1, MdUtil.isWsChar c = true)
    (hws2 : ∀ c ∈ ws2, MdUtil.isWsChar c = true) :
    cleanupXhtml (String.mk ('<' :: 'b' :: 'r' :: (ws1 ++ '/' :: (ws2 ++ ['>'])))) =
      "<br/>" := by
  have hrest : ∀ c ∈ 'b' :: 'r' :: (ws1 ++ '/' :: (ws2 ++ ['>'])),
      (c.toLower == '<') = false := by
    intro c hc
    simp only [List.mem_cons, List.mem_append, List.mem_singleton] at hc
    rcases hc with rfl | rfl | h | rfl | h | rfl | h
    · decide
    · decide
    · exact ws_toLower_ne_lt c (hws1 c h)
    · decide
    · exact ws_toLower_ne_lt c (hws2 c h)
    · decide
    · exact absurd h (List.not_mem_nil c)
  have htrim : MdUtil.trimChars ('<' :: 'b' :: 'r' :: (ws1 ++ '/' :: (ws2 ++ ['>']))) =
      '<' :: 'b' :: 'r' :: (ws1 ++ '/' :: (ws2 ++ ['>'])) := by
    apply trimChars_eq_self
    · intro c hc
      simp only [List.head?_cons, Option.some.injEq] at hc
      subst hc
      decide
    · intro c hc
      rw [show '<' :: 'b' :: 'r' :: (ws1 ++ '/' :: (ws2 ++ ['>'])) =
        ('<' :: 'b' :: 'r' :: (ws1 ++ '/' :: ws2)) ++ ['>'] by simp] at hc
      rw [List.getLast?_concat] at hc
      cases hc
      decide
  have hpre1 : prefixCI "<hr".data ('<' :: 'b' :: 'r' :: (ws1 ++ '/' :: (ws2 ++ ['>']))) =
      false := by
    have hb : ('b'.toLower == 'h') = false := by decide
    simp [prefixCI, hb]
  have hpre3 : prefixCI "<br".data ('<' :: 'b' :: 'r' :: (ws1 ++ '/' :: (ws2 ++ ['>']))) =
      true := by
    simp only [prefixCI]
    decide
  have hadv := emptyTagScan_advance2 "<br".data "<br/>".data
    (ws1.length + ws2.length + 4) '<' ('b' :: 'r' :: (ws1 ++ '/' :: (ws2 ++ ['>'])))
    ws1 (ws2 ++ ['>']) '/' (by simp) hws1 (by decide) (by decide)
  have hfire := slashTagScan_fire "<br".data "<br/>".data (ws1.length + ws2.length + 4)
    '<' ('b' :: 'r' :: (ws1 ++ '/' :: (ws2 ++ ['>']))) ws1 ws2 [] hpre3 (by simp) hws1 hws2
  simp only [cleanupXhtml]
  rw [htrim]
  rw [show ('<' :: 'b' :: 'r' :: (ws1 ++ '/' :: (ws2 ++ ['>']))).length =
    ws1.length + ws2.length + 4 + 1 by simp [List.length_append] <;> omega]
  rw [emptyTagScan_advance _ _ _ _ _ hpre1]
  rw [emptyTagScan_skip "<hr".data "<hr/>".data "hr".data rfl _ _ hrest]
  rw [show ('<' :: 'b' :: 'r' :: (ws1 ++ '/' :: (ws2 ++ ['>']))).length =
    ws1.length + ws2.length + 4 + 1 by simp [List.length_append] <;> omega]
  rw [slashTagScan_advance _ _ _ _ _ hpre1]
  rw [slashTagScan_skip "<hr".data "<hr/>".data "hr".data rfl _ _ hrest]
  rw [show ('<' :: 'b' :: 'r' :: (ws1 ++ '/' :: (ws2 ++ ['>']))).length =
    ws1.length + ws2.length + 4 + 1 by simp [List.length_append] <;> omega]
  rw [hadv]
  rw [emptyTagScan_skip "<br".data "<br/>".data "br".data rfl _ _ hrest]
  rw [show ('<' :: 'b' :: 'r' :: (ws1 ++ '/' :: (ws2 ++ ['>']))).length =
    ws1.length + ws2.length + 4 + 1 by simp [List.length_append] <;> omega]
  rw [hfire, slashTagScan_nil]
  decide

end SimpleConverter

namespace SimpleConverter

theorem cleanup_img (body : List Char) (hne : body ≠ [])
    (hbody : ∀ c ∈ body, (c.toLower == '<') = false ∧ (c != '>') = true)
    (hlast : body.getLast? ≠ some '/') :
    cleanupXhtml (String.mk ('<' :: 'i' :: 'm' :: 'g' :: (body ++ ['>']))) =
      String.mk ("<img".data ++ body ++ "/>".data) := by
  have hrest : ∀ c ∈ 'i' :: 'm' :: 'g' :: (body ++ ['>']), (c.toLower == '<') = false := by
    intro c hc
    simp only [List.mem_cons, List.mem_append, List.mem_singleton] at hc
    rcases hc with rfl | rfl | rfl | h | rfl | h
    · decide
    · decide
    · decide
    · exact (hbody c h).1
    · decide
    · exact absurd h (List.not_mem_nil c)
  have hrest2 : ∀ c ∈ 'i' :: 'm' :: 'g' :: (body ++ "/>".data), (c.toLower == '<') = false := by
    intro c hc
    simp only [List.mem_cons, List.mem_append] at hc
    rcases hc with rfl | rfl | rfl | h | hc
    · decide
    · decide
    · decide
    · exact (hbody c h).1
    · rcases hc with rfl | rfl | h
      · decide
      · decide
      · exact absurd h (List.not_mem_nil c)
  have htrim : MdUtil.trimChars ('<' :: 'i' :: 'm' :: 'g' :: (body ++ ['>'])) =
      '<' :: 'i' :: 'm' :: 'g' :: (body ++ ['>']) := by
    apply trimChars_eq_self
    · intro c hc
      simp only [List.head?_cons, Option.some.injEq] at hc
      subst hc
      decide
    · intro c hc
      rw [show '<' :: 'i' :: 'm' :: 'g' :: (body ++ ['>']) =
        ('<' :: 'i' :: 'm' :: 'g' :: body) ++ ['>'] by simp] at hc
      rw [List.getLast?_concat] at hc
      cases hc
      decide
  have hpreH : prefixCI "<hr".data ('<' :: 'i' :: 'm' :: 'g' :: (body ++ ['>'])) = false := by
    have hi : ('i'.toLower == 'h') = false := by decide
    simp [prefixCI, hi]
  have hpreB : prefixCI "<br".data ('<' :: 'i' :: 'm' :: 'g' :: (body ++ ['>'])) = false := by
    have hi : ('i'.toLower == 'b') = false := by decide
    simp [prefixCI, hi]
  have hpreI : prefixCI "<img".data ('<' :: 'i' :: 'm' :: 'g' :: (body ++ ['>'])) = true := by
    simp only [prefixCI]
    decide
  have hfire := imgTagScan_fire (body.length + 4) '<' ('i' :: 'm' :: 'g' :: (body ++ ['>']))
    body [] hpreI (by simp) (fun x hx => (hbody x hx).2)
    (by cases body with
        | nil => exact absurd rfl hne
        | cons b bs => rfl)
    (by simp [hlast])
  have hpreRH : prefixCI "</hr>".data ('<' :: 'i' :: 'm' :: 'g' :: (body ++ "/>".data)) =
      false := by
    have hi : ('i'.toLower == '/') = false := by decide
    simp [prefixCI, hi]
  have hpreRB : prefixCI "</br>".data ('<' :: 'i' :: 'm' :: 'g' :: (body ++ "/>".data)) =
      false := by
    have hi : ('i'.toLower == '/') = false := by decide
    simp [prefixCI, hi]
  have himg_shape : "<img".data ++ body ++ "/>".data =
      '<' :: 'i' :: 'm' :: 'g' :: (body ++ "/>".data) := by
    simp
  simp only [cleanupXhtml]
  rw [htrim]
  rw [show ('<' :: 'i' :: 'm' :: 'g' :: (body ++ ['>'])).length = body.length + 4 + 1 by
    simp [List.length_append] <;> omega]
  rw [emptyTagScan_advance _ _ _ _ _ hpreH]
  rw [emptyTagScan_skip "<hr".data "<hr/>".data "hr".data rfl _ _ hrest]
  rw [show ('<' :: 'i' :: 'm' :: 'g' :: (body ++ ['>'])).length = body.length + 4 + 1 by
    simp [List.length_append] <;> omega]
  rw [slashTagScan_advance _ _ _ _ _ hpreH]
  rw [slashTagScan_skip "<hr".data "<hr/>".data "hr".data rfl _ _ hrest]
  rw [show ('<' :: 'i' :: 'm' :: 'g' :: (body ++ ['>'])).length = body.length + 4 + 1 by
    simp [List.length_append] <;> omega]
  rw [emptyTagScan_advance _ _ _ _ _ hpreB]
  rw [emptyTagScan_skip "<br".data "<br/>".data "br".data rfl _ _ hrest]
  rw [show ('<' :: 'i' :: 'm' :: 'g' :: (body ++ ['>'])).length = body.length + 4 + 1 by
    simp [List.length_append] <;> omega]
  rw [slashTagScan_advance _ _ _ _ _ hpreB]
  rw [slashTagScan_skip "<br".data "<br/>".data "br".data rfl _ _ hrest]
  rw [show ('<' :: 'i' :: 'm' :: 'g' :: (body ++ ['>'])).length = body.length + 4 + 1 by
    simp [List.length_append] <;> omega]
  rw [hfire, imgTagScan_nil, List.append_nil]
  rw [himg_shape]
  rw [show ('<' :: 'i' :: 'm' :: 'g' :: (body ++ "/>".data)).length = body.length + 5 + 1 by
    simp [List.length_append] <;> omega]
  rw [removeAllCI_advance _ _ _ _ hpreRH]
  rw [removeAllCI_skip "</hr>".data "/hr>".data rfl _ _ hrest2]
  rw [show ('<' :: 'i' :: 'm' :: 'g' :: (body ++ "/>".data)).length = body.length + 5 + 1 by
    simp [List.length_append] <;> omega]
  rw [removeAllCI_advance _ _ _ _ hpreRB]
  rw [removeAllCI_skip "</br>".data "/br>".data rfl _ _ hrest2]

end SimpleConverter

/-- Claim C8 fails on the code: the normalization pass rewrites `hr`, `br`
and `img` empty-element tags to self-closing form and removes closing `hr`
and `br` tags, but closing `img` tags are NOT removed — the pass has no
rule for `</img>`, which passes through unchanged, while the claim says
erroneous closing tags of all three elements are removed. -/
theorem claim_C8_counterexample :
    SimpleConverter.cleanupXhtml "<hr></hr><br></br><img src=x></img>" =
      "<hr/><br/><img src=x/></img>"
    ∧ SimpleConverter.cleanupXhtml "</img>" = "</img>"
    ∧ MdUtil.containsSub (SimpleConverter.cleanupXhtml "</img>").data "</img>".data = true
    ∧ ("</img>" : String) ≠ "" := by
  decide

/-- Claim C8 as amended: the final normalization pass rewrites every
spelling of the `hr` and `br` empty-element tags (any internal whitespace,
with or without a closing slash) and of the `img` empty-element tag (any
non-empty attribute body without angle brackets and not ending in a slash)
into the self-closing form, and removes the erroneous closing tags `</hr>`
and `</br>`; the erroneous closing tag `</img>` is not removed and passes
through unchanged. -/
theorem claim_C8_self_closing_normalization :
    (∀ ws : List Char, (∀ c ∈ ws, MdUtil.isWsChar c = true) →
      SimpleConverter.cleanupXhtml (String.mk ('<' :: 'h' :: 'r' :: (ws ++ ['>']))) = "<hr/>"
      ∧ SimpleConverter.cleanupXhtml (String.mk ('<' :: 'b' :: 'r' :: (ws ++ ['>']))) =
        "<br/>")
    ∧ (∀ ws1 ws2 : List Char, (∀ c ∈ ws1, MdUtil.isWsChar c = true) →
        (∀ c ∈ ws2, MdUtil.isWsChar c = true) →
      SimpleConverter.cleanupXhtml
          (String.mk ('<' :: 'h' :: 'r' :: (ws1 ++ '/' :: (ws2 ++ ['>'])))) = "<hr/>"
      ∧ SimpleConverter.cleanupXhtml
          (String.mk ('<' :: 'b' :: 'r' :: (ws1 ++ '/' :: (ws2 ++ ['>'])))) = "<br/>")
    ∧ (∀ body : List Char, body ≠ [] →
        (∀ c ∈ body, (c.toLower == '<') = false ∧ (c != '>') = true) →
        body.getLast? ≠ some '/' →
      SimpleConverter.cleanupXhtml
          (String.mk ('<' :: 'i' :: 'm' :: 'g' :: (body ++ ['>']))) =
        String.mk ("<img".data ++ body ++ "/>".data))
    ∧ SimpleConverter.cleanupXhtml "</hr>" = ""
    ∧ SimpleConverter.cleanupXhtml "</br>" = ""
    ∧ SimpleConverter.cleanupXhtml "</img>" = "</img>" :=
  ⟨fun ws h => ⟨SimpleConverter.cleanup_hr_empty ws h, SimpleConverter.cleanup_br_empty ws h⟩,
   fun ws1 ws2 h1 h2 => ⟨SimpleConverter.cleanup_hr_slash ws1 ws2 h1 h2,
     SimpleConverter.cleanup_br_slash ws1 ws2 h1 h2⟩,
   fun body hne hbody hlast => SimpleConverter.cleanup_img body hne hbody hlast,
   by decide, by decide, by decide⟩

/-- Concrete instantiation of the amended claim C8: `<hr >` normalizes to
`<hr/>` and `<img src=a>` to `<img src=a/>`. -/
theorem claim_C8_witness :
    (∀ c ∈ ([' '] : List Char), MdUtil.isWsChar c = true) ∧
    SimpleConverter.cleanupXhtml (String.mk ('<' :: 'h' :: 'r' :: ([' '] ++ ['>']))) =
      "<hr/>" ∧
    SimpleConverter.cleanupXhtml
        (String.mk ('<' :: 'i' :: 'm' :: 'g' :: ((' ' :: "src=a".data) ++ ['>']))) =
      String.mk ("<img".data ++ (' ' :: "src=a".data) ++ "/>".data) :=
  ⟨by decide,
   ((claim_C8_self_closing_normalization.1 [' '] (by decide)).1),
   (claim_C8_self_closing_normalization.2.2.1 (' ' :: "src=a".data) (by decide) (by decide)
     (by decide))⟩
